import Mathlib

/-!
Verification of the Mars mission trajectory engine (backend/orbit_engine.py and
backend/main.py) against its specification.  The engine's numerical kernel is
embedded over the real numbers; the mutable engine state (the lazily grown
mission schedule, its end-time index and the warm-start transfer-time guesses)
is embedded in explicit state-passing style.  Python loops with a fixed
iteration count become fuel recursions with that fuel; unbounded while loops
take an explicit fuel argument and report fuel exhaustion as a failure, which
only ever weakens what the success cases assert.  Real arithmetic has no
non-finite values, so the source's math.isfinite guards are identically true
and noted where they occur.
-/

namespace MarsMission

noncomputable section

/-- A 3-vector of reals, mirroring the (x, y, z) float tuples of the source. -/
abbrev Vec3 : Type := ℝ × ℝ × ℝ

/-- The two planets the engine's planet dictionary contains. -/
inductive Planet where
  | earth
  | mars
deriving DecidableEq

/-- Keplerian orbital elements, from the OrbitalElements dataclass. -/
structure OrbitalElements where
  a : ℝ
  e : ℝ
  i : ℝ
  omega : ℝ
  Omega : ℝ
  M0 : ℝ
  period : ℝ

/-- Earth's orbital elements, from OrbitEngine.__init__. -/
def earthElements : OrbitalElements :=
  { a := 1.00000011, e := 0.01671022, i := 0.00005, omega := 102.9404,
    Omega := 0.0, M0 := 357.51716, period := 365.25636 }

/-- Mars's orbital elements, from OrbitEngine.__init__. -/
def marsElements : OrbitalElements :=
  { a := 1.52366231, e := 0.09341233, i := 1.85061, omega := 286.5016,
    Omega := 49.57854, M0 := 19.41248, period := 686.97976 }

/-- The planets dictionary of OrbitEngine.__init__. -/
def planetElements : Planet → OrbitalElements
  | .earth => earthElements
  | .mars => marsElements

/-- Sun gravitational parameter in AU^3/day^2 (self.mu_sun). -/
def muSun : ℝ := 0.0002959122082855911

/-- self.earth_visual_r. -/
def earthVisualR : ℝ := 0.12
/-- self.mars_visual_r. -/
def marsVisualR : ℝ := 0.08
/-- self.safety_margin. -/
def safetyMargin : ℝ := 0.04
/-- self.spacecraft_collision_r. -/
def spacecraftCollisionR : ℝ := 0.006
/-- self.earth_parking_r. -/
def earthParkingR : ℝ := 0.2
/-- self.mars_parking_r. -/
def marsParkingR : ℝ := 0.18
/-- self.earth_parking_period_days. -/
def earthParkingPeriodDays : ℝ := 70.0
/-- self.mars_parking_period_days. -/
def marsParkingPeriodDays : ℝ := 55.0
/-- self.clearance_check_dt_days. -/
def clearanceCheckDtDays : ℝ := 0.25
/-- self.clearance_extra_margin. -/
def clearanceExtraMargin : ℝ := 0.0
/-- self.launch_scan_window_days. -/
def launchScanWindowDays : ℝ := 1400.0
/-- self.launch_refine_window_days. -/
def launchRefineWindowDays : ℝ := 80.0
/-- self.lambert_dt_min_days. -/
def lambertDtMinDays : ℝ := 180.0
/-- self.lambert_dt_max_days. -/
def lambertDtMaxDays : ℝ := 450.0
/-- self.lambert_dt_step_days. -/
def lambertDtStepDays : ℝ := 5.0
/-- self.lambert_dt_window_days. -/
def lambertDtWindowDays : ℝ := 80.0
/-- self.lambert_depart_window_days (set to launch_refine_window_days). -/
def lambertDepartWindowDays : ℝ := launchRefineWindowDays
/-- self.lambert_depart_step_days. -/
def lambertDepartStepDays : ℝ := 2.0
/-- self.lambert_phase_scan_step_days. -/
def lambertPhaseScanStepDays : ℝ := 10.0
/-- self.lambert_try_long_way. -/
def lambertTryLongWay : Bool := false
/-- self.lambert_max_total_dv. -/
def lambertMaxTotalDv : ℝ := 0.006

/-- np.radians / math.radians. -/
def radiansOf (d : ℝ) : ℝ := d * (Real.pi / 180)

/-- np.degrees / math.degrees. -/
def degreesOf (r : ℝ) : ℝ := r * (180 / Real.pi)

/-- Python's float modulo x % m for positive m: x - m * floor (x / m). -/
def pyMod (x m : ℝ) : ℝ := x - m * (⌊x / m⌋ : ℤ)

/-- One run of the Newton loop in solve_kepler_equation: up to the given fuel
many updates, stopping early once the residual is below the tolerance. -/
def keplerIter (e mRad : ℝ) : ℕ → ℝ → ℝ
  | 0, E => E
  | n + 1, E =>
      let delta := E - e * Real.sin E - mRad
      if |delta| < 1e-10 then E
      else keplerIter e mRad n (E - delta / (1 - e * Real.cos E))

/-- OrbitEngine.solve_kepler_equation with the default tolerance 1e-10 and
max_iter 100: Newton iteration started from E = M (radians), result in
degrees. -/
def solveKeplerEquation (M e : ℝ) : ℝ :=
  degreesOf (keplerIter e (radiansOf M) 100 (radiansOf M))

/-- math.atan2 / np.arctan2 over the reals (the sign-of-zero distinctions of
IEEE floats collapse; atan2 0 0 = 0 as in Python). -/
def arctan2 (y x : ℝ) : ℝ :=
  if 0 < x then Real.arctan (y / x)
  else if x < 0 ∧ 0 ≤ y then Real.arctan (y / x) + Real.pi
  else if x < 0 ∧ y < 0 then Real.arctan (y / x) - Real.pi
  else if x = 0 ∧ 0 < y then Real.pi / 2
  else if x = 0 ∧ y < 0 then -(Real.pi / 2)
  else 0

/-- The eccentric anomaly in radians of get_planet_position: mean anomaly
M = (M0 + (360 / P) t) mod 360, solved by solve_kepler_equation and converted
back to radians. -/
def keplerERad (elem : OrbitalElements) (timeDays : ℝ) : ℝ :=
  let n := 360.0 / elem.period
  let M := pyMod (elem.M0 + n * timeDays) 360
  radiansOf (solveKeplerEquation M elem.e)

/-- The heliocentric radius r = a (1 - e cos E) of get_planet_position. -/
def keplerR (elem : OrbitalElements) (timeDays : ℝ) : ℝ :=
  elem.a * (1 - elem.e * Real.cos (keplerERad elem timeDays))

/-- The true anomaly of get_planet_position, in radians after the source's
degrees round-trip: nu = 2 atan2(sqrt(1+e) sin(E/2), sqrt(1-e) cos(E/2)). -/
def keplerNuRad (elem : OrbitalElements) (timeDays : ℝ) : ℝ :=
  let eRad := keplerERad elem timeDays
  let e := elem.e
  radiansOf (degreesOf (2 * arctan2 (Real.sqrt (1 + e) * Real.sin (eRad / 2))
    (Real.sqrt (1 - e) * Real.cos (eRad / 2))))

/-- The heliocentric position computation of OrbitEngine.get_planet_position
for a given element set (the body of the method after the planet lookup). -/
def keplerXYZ (elem : OrbitalElements) (timeDays : ℝ) : Vec3 :=
  let r := keplerR elem timeDays
  let omegaRad := radiansOf elem.omega
  let nuRad := keplerNuRad elem timeDays
  let xOrb := r * Real.cos nuRad
  let yOrb := r * Real.sin nuRad
  let iRad := radiansOf elem.i
  let OmegaRad := radiansOf elem.Omega
  let x := xOrb * (Real.cos omegaRad * Real.cos OmegaRad -
        Real.sin omegaRad * Real.sin OmegaRad * Real.cos iRad) -
      yOrb * (Real.sin omegaRad * Real.cos OmegaRad +
        Real.cos omegaRad * Real.sin OmegaRad * Real.cos iRad)
  let y := xOrb * (Real.cos omegaRad * Real.sin OmegaRad +
        Real.sin omegaRad * Real.cos OmegaRad * Real.cos iRad) -
      yOrb * (Real.sin omegaRad * Real.sin OmegaRad -
        Real.cos omegaRad * Real.cos OmegaRad * Real.cos iRad)
  let z := xOrb * (Real.sin omegaRad * Real.sin iRad) +
      yOrb * (Real.cos omegaRad * Real.sin iRad)
  (x, y, z)

/-- OrbitEngine.get_planet_position (the planet name is known, so the
unknown-planet ValueError branch cannot fire). -/
def planetPosition (p : Planet) (timeDays : ℝ) : Vec3 :=
  keplerXYZ (planetElements p) timeDays

/-- OrbitEngine.get_planet_velocity: forward finite difference, dt = 0.01. -/
def planetVelocity (p : Planet) (timeDays : ℝ) : Vec3 :=
  let pos1 := planetPosition p timeDays
  let pos2 := planetPosition p (timeDays + 0.01)
  ((pos2.1 - pos1.1) / 0.01, (pos2.2.1 - pos1.2.1) / 0.01, (pos2.2.2 - pos1.2.2) / 0.01)

/-- OrbitEngine._wrap_to_pi. -/
def wrapToPi (angleRad : ℝ) : ℝ :=
  let wrapped := pyMod (angleRad + Real.pi) (2 * Real.pi) - Real.pi
  if wrapped ≠ -Real.pi then wrapped else Real.pi

/-- OrbitEngine._r_xy (math.hypot of the xy components). -/
def rXY (pos : Vec3) : ℝ := Real.sqrt (pos.1 * pos.1 + pos.2.1 * pos.2.1)

/-- OrbitEngine._theta_xy. -/
def thetaXY (pos : Vec3) : ℝ := arctan2 pos.2.1 pos.1

/-- OrbitEngine._parking_radius. -/
def parkingRadius : Planet → ℝ
  | .earth => earthParkingR
  | .mars => marsParkingR

/-- OrbitEngine._r_hat_xy. -/
def rHatXY (pos : Vec3) : ℝ × ℝ :=
  let r := rXY pos
  if r = 0 then (1.0, 0.0) else (pos.1 / r, pos.2.1 / r)

/-- OrbitEngine._prograde_basis_xy. -/
def progradeBasisXY (pos vel : Vec3) : (ℝ × ℝ) × (ℝ × ℝ) :=
  let rHat := rHatXY pos
  let tHat : ℝ × ℝ := (-rHat.2, rHat.1)
  if tHat.1 * vel.1 + tHat.2 * vel.2.1 < 0 then (rHat, (-tHat.1, -tHat.2)) else (rHat, tHat)

/-- OrbitEngine._outer_parking_point. -/
def outerParkingPoint (p : Planet) (timeDays : ℝ) : Vec3 :=
  let pos := planetPosition p timeDays
  let rHat := rHatXY pos
  let radius := parkingRadius p
  (pos.1 + rHat.1 * radius, pos.2.1 + rHat.2 * radius, pos.2.2)

/-- OrbitEngine._parking_position. -/
def parkingPosition (p : Planet) (timeDays tAnchor radius periodDays : ℝ) : Vec3 :=
  let pos := planetPosition p timeDays
  let vel := planetVelocity p timeDays
  let basis := progradeBasisXY pos vel
  let rHat := basis.1
  let tHat := basis.2
  let omega := 2 * Real.pi / max 1e-9 periodDays
  let phi := omega * (timeDays - tAnchor)
  let dx := (Real.cos phi * radius) * rHat.1 + (Real.sin phi * radius) * tHat.1
  let dy := (Real.cos phi * radius) * rHat.2 + (Real.sin phi * radius) * tHat.2
  (pos.1 + dx, pos.2.1 + dy, pos.2.2)

/-- Python's builtin round (banker's rounding: ties go to the even
neighbour), as used by _fit_parking_period via int(round(..)). -/
def pythonRound (x : ℝ) : ℤ :=
  if x - (⌊x⌋ : ℤ) = 1 / 2 then (if 2 ∣ ⌊x⌋ then ⌊x⌋ else ⌊x⌋ + 1)
  else ⌊x + 1 / 2⌋

/-- OrbitEngine._fit_parking_period: period and integer revolution count. -/
def fitParkingPeriod (durationDays nominalPeriodDays : ℝ) : ℝ × ℤ :=
  let duration := max 1e-6 durationDays
  let nominal := max 1e-6 nominalPeriodDays
  let revolutions := max 1 (pythonRound (duration / nominal))
  let period := duration / (revolutions : ℝ)
  (period, revolutions)

/-- OrbitEngine._dist3. -/
def dist3 (a b : Vec3) : ℝ :=
  Real.sqrt ((a.1 - b.1) * (a.1 - b.1) + (a.2.1 - b.2.1) * (a.2.1 - b.2.1) +
    (a.2.2 - b.2.2) * (a.2.2 - b.2.2))

/-- OrbitEngine._exclusion_radius. -/
def exclusionRadius (p : Planet) : ℝ :=
  let base := safetyMargin + spacecraftCollisionR
  match p with
  | .earth => earthVisualR + base
  | .mars => marsVisualR + base

/-- OrbitEngine._stumpff_C. -/
def stumpffC (z : ℝ) : ℝ :=
  if |z| < 1e-8 then 0.5 - z / 24.0 + (z * z) / 720.0 - (z * z * z) / 40320.0
  else if 0 < z then (1 - Real.cos (Real.sqrt z)) / z
  else (Real.cosh (Real.sqrt (-z)) - 1) / (Real.sqrt (-z) * Real.sqrt (-z))

/-- OrbitEngine._stumpff_S. -/
def stumpffS (z : ℝ) : ℝ :=
  if |z| < 1e-8 then 1.0 / 6.0 - z / 120.0 + (z * z) / 5040.0 - (z * z * z) / 362880.0
  else if 0 < z then (Real.sqrt z - Real.sin (Real.sqrt z)) / (Real.sqrt z * Real.sqrt z * Real.sqrt z)
  else (Real.sinh (Real.sqrt (-z)) - Real.sqrt (-z)) /
    (Real.sqrt (-z) * Real.sqrt (-z) * Real.sqrt (-z))

/-- OrbitEngine._dot3. -/
def dot3 (a b : Vec3) : ℝ := a.1 * b.1 + a.2.1 * b.2.1 + a.2.2 * b.2.2

/-- OrbitEngine._cross3. -/
def cross3 (a b : Vec3) : Vec3 :=
  (a.2.1 * b.2.2 - a.2.2 * b.2.1, a.2.2 * b.1 - a.1 * b.2.2, a.1 * b.2.1 - a.2.1 * b.1)

/-- OrbitEngine._norm3. -/
def norm3 (a : Vec3) : ℝ := Real.sqrt (a.1 * a.1 + a.2.1 * a.2.1 + a.2.2 * a.2.2)

/-- OrbitEngine._v3_sub. -/
def v3Sub (a b : Vec3) : Vec3 := (a.1 - b.1, a.2.1 - b.2.1, a.2.2 - b.2.2)

/-- The TransferLeg frozen dataclass. -/
structure TransferLeg where
  source : Planet
  target : Planet
  t_depart : ℝ
  t_arrive : ℝ
  duration : ℝ
  pos_depart : Vec3
  pos_arrive : Vec3
  vel_depart : Vec3
  vel_arrive : Vec3
  prograde : Bool
  long_way : Bool

/-- The inner tof_at_z helper of OrbitEngine._lambert_uv: time of flight and
the intermediate quantities (tof, y, C, S) at a universal variable z, or none
when C ≤ 0 or y < 0. -/
def tofAtZ (r1 r2 A sqrtMu z : ℝ) : Option (ℝ × ℝ × ℝ × ℝ) :=
  let C := stumpffC z
  let S := stumpffS z
  if C ≤ 0 then none
  else
    let sqrtC := Real.sqrt C
    let y := r1 + r2 + A * (z * S - 1) / sqrtC
    if y < 0 then none
    else
      let sqrtY := Real.sqrt y
      let chi := sqrtY / sqrtC
      let tof := (chi * chi * chi * S + A * sqrtY) / sqrtMu
      some (tof, y, C, S)

/-- The upward bracket expansion of _lambert_uv (the tof0 < dt branch):
double z_high up to 60 times until the time of flight reaches dt, bailing out
(None in the source) once z_high exceeds 1000. -/
def lambertExpandHigh (r1 r2 A sqrtMu dt : ℝ) : ℕ → ℝ → Option ℝ
  | 0, zHigh => some zHigh
  | n + 1, zHigh =>
      let good := match tofAtZ r1 r2 A sqrtMu zHigh with
        | some out => decide (dt ≤ out.1)
        | none => false
      if good then some zHigh
      else
        let zHigh2 := zHigh * 2
        if 1000 < zHigh2 then none
        else lambertExpandHigh r1 r2 A sqrtMu dt n zHigh2

/-- The downward bracket expansion of _lambert_uv (the tof0 ≥ dt branch):
double z_low negatively up to 60 times until the time of flight drops to dt,
bailing out once z_low goes below -1000. -/
def lambertExpandLow (r1 r2 A sqrtMu dt : ℝ) : ℕ → ℝ → Option ℝ
  | 0, zLow => some zLow
  | n + 1, zLow =>
      let good := match tofAtZ r1 r2 A sqrtMu zLow with
        | some out => decide (out.1 ≤ dt)
        | none => false
      if good then some zLow
      else
        let zLow2 := zLow * 2
        if zLow2 < -1000 then none
        else lambertExpandLow r1 r2 A sqrtMu dt n zLow2

/-- The 80-iteration bisection of _lambert_uv.  The accumulator holds the
(y, C, S) triple of the last successful tof evaluation, mirroring the
mutable y, C, S of the source (initially None). -/
def lambertBisect (r1 r2 A sqrtMu dt : ℝ) :
    ℕ → ℝ → ℝ → ℝ → Option (ℝ × ℝ × ℝ) → Option (ℝ × ℝ × ℝ)
  | 0, _z, _zLow, _zHigh, acc => acc
  | n + 1, z, zLow, zHigh, acc =>
      match tofAtZ r1 r2 A sqrtMu z with
      | none => lambertBisect r1 r2 A sqrtMu dt n (0.5 * (z + zHigh)) z zHigh acc
      | some out =>
          let tof := out.1
          let y := out.2.1
          let C := out.2.2.1
          let S := out.2.2.2
          let acc2 : Option (ℝ × ℝ × ℝ) := some (y, C, S)
          if |tof - dt| < 1e-6 then acc2
          else if tof < dt then lambertBisect r1 r2 A sqrtMu dt n (0.5 * (z + zHigh)) z zHigh acc2
          else lambertBisect r1 r2 A sqrtMu dt n (0.5 * (zLow + z)) zLow z acc2

/-- OrbitEngine._lambert_uv: terminal velocity vectors of the conic joining
r1_vec and r2_vec in the given time of flight, or none on any of the source's
failure exits. -/
def lambertUV (r1Vec r2Vec : Vec3) (dtDays : ℝ) (prograde longWay : Bool) :
    Option (Vec3 × Vec3) :=
  if dtDays ≤ 0 then none
  else
    let r1 := norm3 r1Vec
    let r2 := norm3 r2Vec
    if r1 ≤ 0 ∨ r2 ≤ 0 then none
    else
      let cosTheta0 := dot3 r1Vec r2Vec / (r1 * r2)
      let cosTheta := max (-1) (min 1 cosTheta0)
      let theta0 := Real.arccos cosTheta
      let crossZ := (cross3 r1Vec r2Vec).2.2
      let thetaShort :=
        if prograde then (if 0 ≤ crossZ then theta0 else 2 * Real.pi - theta0)
        else (if crossZ < 0 then theta0 else 2 * Real.pi - theta0)
      let theta := if longWay then 2 * Real.pi - thetaShort else thetaShort
      let sinTheta := Real.sin theta
      if 1 + cosTheta < 1e-12 then none
      else
        let signCarrier := if 1e-15 < |sinTheta| then sinTheta else 1
        let A := if signCarrier < 0 then -Real.sqrt (r1 * r2 * (1 + cosTheta))
          else Real.sqrt (r1 * r2 * (1 + cosTheta))
        if |A| < 1e-15 then none
        else
          let sqrtMu := Real.sqrt muSun
          match tofAtZ r1 r2 A sqrtMu 0 with
          | none => none
          | some t0 =>
              let bracket : Option (ℝ × ℝ) :=
                if t0.1 < dtDays then
                  match lambertExpandHigh r1 r2 A sqrtMu dtDays 60 1 with
                  | none => none
                  | some zHigh => some (0, zHigh)
                else
                  match lambertExpandLow r1 r2 A sqrtMu dtDays 60 (-1) with
                  | none => none
                  | some zLow => some (zLow, 0)
              match bracket with
              | none => none
              | some zs =>
                  let zLow := zs.1
                  let zHigh := zs.2
                  match lambertBisect r1 r2 A sqrtMu dtDays 80 (0.5 * (zLow + zHigh)) zLow zHigh none with
                  | none => none
                  | some ycs =>
                      let y := ycs.1
                      let f := 1 - y / r1
                      let g := A * Real.sqrt (y / muSun)
                      let gdot := 1 - y / r2
                      if |g| < 1e-12 then none
                      else
                        some (((r2Vec.1 - f * r1Vec.1) / g, (r2Vec.2.1 - f * r1Vec.2.1) / g,
                            (r2Vec.2.2 - f * r1Vec.2.2) / g),
                          ((gdot * r2Vec.1 - r1Vec.1) / g, (gdot * r2Vec.2.1 - r1Vec.2.1) / g,
                            (gdot * r2Vec.2.2 - r1Vec.2.2) / g))

/-- The Newton iteration on the universal anomaly chi inside
OrbitEngine._propagate_two_body (up to 60 updates, early exits on a small
residual or a vanishing derivative). -/
def propNewton (sqrtMu r0 r0v0 alpha dt : ℝ) : ℕ → ℝ → ℝ
  | 0, chi => chi
  | n + 1, chi =>
      let z := alpha * chi * chi
      let C := stumpffC z
      let S := stumpffS z
      let t := ((chi * chi * chi * S) + (r0v0 / sqrtMu) * (chi * chi * C) +
        r0 * chi * (1 - z * S)) / sqrtMu
      let f := t - dt
      if |f| < 1e-9 then chi
      else
        let dtdchi := ((chi * chi * C) + (r0v0 / sqrtMu) * chi * (1 - z * S) +
          r0 * (1 - z * C)) / sqrtMu
        if dtdchi = 0 then chi
        else propNewton sqrtMu r0 r0v0 alpha dt n (chi - f / dtdchi)

/-- OrbitEngine._propagate_two_body: universal-variable two-body propagation
of (r0, v0) by dt days under mu_sun.  The source's math.isfinite bail-outs
are identically true over the reals and so do not appear. -/
def propagateTwoBody (r0Vec v0Vec : Vec3) (dtDays : ℝ) : Vec3 × Vec3 :=
  if dtDays = 0 then (r0Vec, v0Vec)
  else
    let r0 := norm3 r0Vec
    if r0 ≤ 0 then (r0Vec, v0Vec)
    else
      let mu := muSun
      let sqrtMu := Real.sqrt mu
      let v0Sq := dot3 v0Vec v0Vec
      let alpha := 2 / r0 - v0Sq / mu
      let r0v0 := dot3 r0Vec v0Vec
      let chi0 := sqrtMu * dtDays / r0
      let chi1 := if dtDays < 0 then -|chi0| else chi0
      let chi := propNewton sqrtMu r0 r0v0 alpha dtDays 60 chi1
      let z := alpha * chi * chi
      let C := stumpffC z
      let S := stumpffS z
      let f := 1 - (chi * chi / r0) * C
      let g := dtDays - (chi * chi * chi / sqrtMu) * S
      let rVec : Vec3 := (f * r0Vec.1 + g * v0Vec.1, f * r0Vec.2.1 + g * v0Vec.2.1,
        f * r0Vec.2.2 + g * v0Vec.2.2)
      let r := norm3 rVec
      if r ≤ 0 then (rVec, v0Vec)
      else
        let gdot := 1 - (chi * chi / r) * C
        let fdot := (sqrtMu / (r * r0)) * chi * (z * S - 1)
        let vVec : Vec3 := (fdot * r0Vec.1 + gdot * v0Vec.1, fdot * r0Vec.2.1 + gdot * v0Vec.2.1,
          fdot * r0Vec.2.2 + gdot * v0Vec.2.2)
        (rVec, vVec)

/-- OrbitEngine._compute_lambert_leg: build a TransferLeg candidate between
the outer parking points, validating it by re-propagating the departure state
and requiring arrival within 1e-4 AU. -/
def computeLambertLeg (source target : Planet) (tDepart dtDays : ℝ)
    (prograde longWay : Bool) : Option TransferLeg :=
  if dtDays ≤ 0 then none
  else
    let tArrive := tDepart + dtDays
    let posDepart := outerParkingPoint source tDepart
    let posArrive := outerParkingPoint target tArrive
    match lambertUV posDepart posArrive dtDays prograde longWay with
    | none => none
    | some vs =>
        let posCheck := (propagateTwoBody posDepart vs.1 dtDays).1
        if 1e-4 < dist3 posCheck posArrive then none
        else
          some { source := source, target := target, t_depart := tDepart,
                 t_arrive := tArrive, duration := dtDays, pos_depart := posDepart,
                 pos_arrive := posArrive, vel_depart := vs.1, vel_arrive := vs.2,
                 prograde := prograde, long_way := longWay }

/-- OrbitEngine._get_transfer_position: spacecraft position along a transfer
leg (clamped to the endpoints outside the leg's interval). -/
def transferPosition (leg : TransferLeg) (timeDays : ℝ) : Vec3 :=
  if timeDays ≤ leg.t_depart then leg.pos_depart
  else if leg.t_arrive ≤ timeDays then leg.pos_arrive
  else (propagateTwoBody leg.pos_depart leg.vel_depart (timeDays - leg.t_depart)).1

/-- The number of subdivisions of the min_clearance scan inside
_transfer_leg_clearance_ok: max(1, ceil((t1 - t0) / max(1e-6, dt))). -/
def clearanceSteps (leg : TransferLeg) (dtq : ℝ) : ℕ :=
  max 1 (Int.toNat ⌈(leg.t_arrive - leg.t_depart) / max 1e-6 dtq⌉)

/-- The i-th sample epoch of the min_clearance scan:
t0 + (t1 - t0) * (i / steps). -/
def clearanceSample (leg : TransferLeg) (dtq : ℝ) (i : ℕ) : ℝ :=
  leg.t_depart + (leg.t_arrive - leg.t_depart) *
    ((i : ℝ) / (clearanceSteps leg dtq : ℝ))

/-- Margin of the i-th sample against Earth: distance minus the exclusion
radius (re), as computed inside the min_clearance loop. -/
def clearEarthAt (leg : TransferLeg) (re dtq : ℝ) (i : ℕ) : ℝ :=
  dist3 (transferPosition leg (clearanceSample leg dtq i))
    (planetPosition .earth (clearanceSample leg dtq i)) - re

/-- Margin of the i-th sample against Mars. -/
def clearMarsAt (leg : TransferLeg) (rm dtq : ℝ) (i : ℕ) : ℝ :=
  dist3 (transferPosition leg (clearanceSample leg dtq i))
    (planetPosition .mars (clearanceSample leg dtq i)) - rm

/-- The sampling loop of min_clearance inside _transfer_leg_clearance_ok.
The running minimum starts as Python's float('inf'), modelled as none; the
loop returns early as soon as the running minimum goes negative.  The fuel is
the exact Python iteration count steps + 1. -/
def clearanceLoop (leg : TransferLeg) (re rm dtq : ℝ) : ℕ → ℕ → Option ℝ → Option ℝ
  | 0, _i, best => best
  | n + 1, i, best =>
      let ce := clearEarthAt leg re dtq i
      let cm := clearMarsAt leg rm dtq i
      let best1 := match best with
        | none => ce
        | some b => if ce < b then ce else b
      let best2 := if cm < best1 then cm else best1
      if best2 < 0 then some best2
      else clearanceLoop leg re rm dtq n (i + 1) (some best2)

/-- The min_clearance helper of _transfer_leg_clearance_ok.  The loop always
runs at least one iteration (steps ≥ 1), so the accumulator is always set and
the default of getD is never used. -/
def minClearance (leg : TransferLeg) (re rm dtq : ℝ) : ℝ :=
  (clearanceLoop leg re rm dtq (clearanceSteps leg dtq + 1) 0 none).getD 0

/-- OrbitEngine._transfer_leg_clearance_ok: coarse scan at
clearance_check_dt_days, with a confirming rescan at a fifth of the step when
the coarse minimum margin is below 5e-3 (but non-negative). -/
def transferLegClearanceOk (leg : TransferLeg) : Bool :=
  let dt := max 1e-6 clearanceCheckDtDays
  let extra := max 0 clearanceExtraMargin
  let re := exclusionRadius .earth + extra
  let rm := exclusionRadius .mars + extra
  if leg.t_arrive ≤ leg.t_depart then true
  else
    let coarse := minClearance leg re rm dt
    if coarse < 0 then false
    else if coarse < 5e-3 then
      let fineDt := max 1e-6 (dt / 5)
      decide (0 ≤ minClearance leg re rm fineDt)
    else true

/-- The per-direction transfer-time guesses (self._transfer_time_guess),
modelled as a total map; both directions start at 259 days and
dict.get(key, 259.0) coincides with plain application. -/
abbrev GuessMap : Type := Planet → Planet → ℝ

/-- The initial guess table of OrbitEngine.__init__. -/
def initGuess : GuessMap := fun _ _ => 259.0

/-- Updating the guess table at one (source, target) key. -/
def updateGuess (g : GuessMap) (s t : Planet) (v : ℝ) : GuessMap :=
  fun a b => if a = s ∧ b = t then v else g a b

/-- Stable insertion by the sort key |d - guess| (inserting after equal
keys), giving the same order as Python's stable list.sort(key=..). -/
def insertByKey (key : ℝ → ℝ) (x : ℝ) : List ℝ → List ℝ
  | [] => [x]
  | y :: ys => if key y ≤ key x then y :: insertByKey key x ys else x :: y :: ys

/-- Stable insertion sort by a key, matching Python's stable sort. -/
def sortByKey (key : ℝ → ℝ) : List ℝ → List ℝ
  | [] => []
  | y :: ys => insertByKey key y (sortByKey key ys)

/-- The sanitized flight-time grid parameters of _find_next_lambert_leg
(the source re-checks the configured constants at run time). -/
def dtStepSan : ℝ := if lambertDtStepDays ≤ 0 then 5.0 else lambertDtStepDays
/-- Sanitized lambert_dt_min_days. -/
def dtMinSan : ℝ := if lambertDtMinDays ≤ 0 then 1.0 else lambertDtMinDays
/-- Sanitized lambert_dt_max_days. -/
def dtMaxSan : ℝ :=
  if lambertDtMaxDays ≤ dtMinSan then dtMinSan + dtStepSan else lambertDtMaxDays
/-- Sanitized lambert_dt_window_days. -/
def dtWindowSan : ℝ := if lambertDtWindowDays < 0 then 0 else lambertDtWindowDays
/-- Sanitized lambert_depart_step_days. -/
def departStepSan : ℝ := if lambertDepartStepDays ≤ 0 then 2.0 else lambertDepartStepDays
/-- Sanitized lambert_phase_scan_step_days. -/
def coarseStepSan : ℝ := if lambertPhaseScanStepDays ≤ 0 then 10.0 else lambertPhaseScanStepDays

/-- The flight-time candidate grid of _find_next_lambert_leg before sorting:
dt_start + k * dt_step for k = 0, 1, ... while the value stays at most
dt_end + 1e-12, with the fallback single candidate when the grid is empty. -/
def dtCandidatesRaw (dtGuess : ℝ) : List ℝ :=
  let dtStart := max dtMinSan (dtGuess - dtWindowSan)
  let dtEnd := min dtMaxSan (dtGuess + dtWindowSan)
  let count : ℕ :=
    if dtStart ≤ dtEnd + 1e-12 then Int.toNat ⌊(dtEnd + 1e-12 - dtStart) / dtStepSan⌋ + 1 else 0
  let grid := (List.range count).map fun k => dtStart + (k : ℝ) * dtStepSan
  if grid.isEmpty then [max dtMinSan (min dtMaxSan dtGuess)] else grid

/-- The sorted flight-time candidates (closest to the guess first). -/
def dtCandidates (dtGuess : ℝ) : List ℝ :=
  sortByKey (fun d => |d - dtGuess|) (dtCandidatesRaw dtGuess)

/-- The phase_error closure of _find_next_lambert_leg. -/
def phaseError (source target : Planet) (dtGuess tDepart : ℝ) : ℝ :=
  let posSource := planetPosition source tDepart
  let posTarget := planetPosition target (tDepart + dtGuess)
  wrapToPi (thetaXY posTarget - (thetaXY posSource + Real.pi))

/-- The 60-iteration bisection refinement inside find_next_phase_root. -/
def phaseBisect (pe : ℝ → ℝ) : ℕ → ℝ → ℝ → ℝ → ℝ
  | 0, a, b, _errA => 0.5 * (a + b)
  | n + 1, a, b, errA =>
      let mid := 0.5 * (a + b)
      let errMid := pe mid
      if |errMid| < 1e-8 ∨ b - a < 1e-6 then mid
      else if errA * errMid ≤ 0 then phaseBisect pe n a mid errA
      else phaseBisect pe n mid b errMid

/-- The coarse scan of find_next_phase_root: walk from the start in steps of
the coarse step, looking for a sign change of the phase error (guarded
against wrap-around), then refine by bisection.  The fuel bounds the number
of scan steps; the caller passes enough fuel for the whole window. -/
def phaseRootScan (pe : ℝ → ℝ) (tEnd coarseStep : ℝ) :
    ℕ → ℝ → Option (ℝ × ℝ) → Option ℝ
  | 0, _t, _prev => none
  | n + 1, t, prev =>
      if t ≤ tEnd + 1e-9 then
        let err := pe t
        match prev with
        | some pt =>
            if pt.2 = 0 then some pt.1
            else if pt.2 * err < 0 ∧ |err - pt.2| < Real.pi then
              some (phaseBisect pe 60 pt.1 t pt.2)
            else phaseRootScan pe tEnd coarseStep n (t + coarseStep) (some (t, err))
        | none => phaseRootScan pe tEnd coarseStep n (t + coarseStep) (some (t, err))
      else none

/-- find_next_phase_root of _find_next_lambert_leg, with a fuel that covers
every scan step of the window. -/
def findNextPhaseRoot (source target : Planet) (dtGuess tEnd tStart : ℝ) : Option ℝ :=
  let fuel := Int.toNat ⌈(tEnd + 1e-9 - tStart) / coarseStepSan⌉ + 2
  phaseRootScan (phaseError source target dtGuess) tEnd coarseStepSan fuel tStart none

/-- One candidate evaluation of the inner loop of _find_next_lambert_leg:
build the leg, apply the delta-v budget and the clearance filter, and keep it
when it improves the best cost so far (none plays float('inf')). -/
def evalCandidate (source target : Planet) (tDepart : ℝ) (vSource : Vec3)
    (acc : Option (TransferLeg × ℝ)) (dt : ℝ) (longWay : Bool) :
    Option (TransferLeg × ℝ) :=
  match computeLambertLeg source target tDepart dt true longWay with
  | none => acc
  | some leg =>
      let vTarget := planetVelocity target leg.t_arrive
      let dv1 := norm3 (v3Sub leg.vel_depart vSource)
      let dv2 := norm3 (v3Sub leg.vel_arrive vTarget)
      let cost := dv1 + dv2
      if lambertMaxTotalDv < cost then acc
      else if transferLegClearanceOk leg = false then acc
      else
        match acc with
        | none => some (leg, cost)
        | some best => if cost < best.2 then some (leg, cost) else acc

/-- The candidate pairs scanned at one departure epoch: flight times in grid
order (closest to the guess first), each with the long-way options
(False only, since lambert_try_long_way is False; the source would add True
after False). -/
def candidatePairs (dtGuess : ℝ) : List (ℝ × Bool) :=
  (dtCandidates dtGuess).flatMap fun dt =>
    if lambertTryLongWay then [(dt, false), (dt, true)] else [(dt, false)]

/-- The best (minimum delta-v) leg over all candidates at one departure
epoch. -/
def bestLegAt (source target : Planet) (dtGuess tDepart : ℝ) :
    Option (TransferLeg × ℝ) :=
  let vSource := planetVelocity source tDepart
  (candidatePairs dtGuess).foldl
    (fun acc c => evalCandidate source target tDepart vSource acc c.1 c.2) none

/-- The departure-epoch scan (the inner while loop of the window loop of
_find_next_lambert_leg): step through departure epochs until one yields a
best leg or the scan window is exhausted. -/
def departScan (source target : Planet) (dtGuess scanEnd : ℝ) : ℕ → ℝ → Option TransferLeg
  | 0, _t => none
  | n + 1, tDepart =>
      if tDepart ≤ scanEnd + 1e-9 then
        match bestLegAt source target dtGuess tDepart with
        | some best => some best.1
        | none => departScan source target dtGuess scanEnd n (tDepart + departStepSan)
      else none

/-- Fuel covering every step of one departure scan window. -/
def departFuel (scanStart scanEnd : ℝ) : ℕ :=
  Int.toNat ⌈(scanEnd + 1e-9 - scanStart) / departStepSan⌉ + 2

/-- The retry-window loop of _find_next_lambert_leg: scan a window around the
current center, then advance the center by the synodic period; the fuel is
the max_windows bound of the source, and running out (the source's loop
falling through) is the RuntimeError exit. -/
def windowScan (source target : Planet) (dtGuess earliest tEnd synodic : ℝ) :
    ℕ → ℝ → Option TransferLeg
  | 0, _center => none
  | n + 1, center =>
      let scanStart := max earliest (center - lambertDepartWindowDays)
      let scanEnd := min tEnd (center + lambertDepartWindowDays)
      match departScan source target dtGuess scanEnd (departFuel scanStart scanEnd) scanStart with
      | some leg => some leg
      | none => windowScan source target dtGuess earliest tEnd synodic n (center + synodic)

/-- OrbitEngine._find_next_lambert_leg: the launch-window search.  Returns
the found leg together with the updated warm-start guess table, or none for
the source's RuntimeError. -/
def findNextLambertLeg (source target : Planet) (earliestTime : ℝ) (g : GuessMap) :
    Option (TransferLeg × GuessMap) :=
  let earliest := max 0 earliestTime
  let tEnd := earliest + launchScanWindowDays
  let dtGuess := g source target
  let pSource := (planetElements source).period
  let pTarget := (planetElements target).period
  let denom := if 0 < pSource ∧ 0 < pTarget then |1 / pSource - 1 / pTarget| else 0
  let synodic := if 0 < denom then 1 / denom else launchScanWindowDays
  let center0 := match findNextPhaseRoot source target dtGuess tEnd earliest with
    | some root => root
    | none => earliest
  let maxWindows := Int.toNat ⌈(tEnd - earliest) / max 1e-6 synodic⌉ + 2
  match windowScan source target dtGuess earliest tEnd synodic maxWindows center0 with
  | some leg => some (leg, updateGuess g source target leg.duration)
  | none => none

/-- The MissionSchedule frozen dataclass. -/
structure MissionSchedule where
  mission_index : ℕ
  t_start : ℝ
  leg_outbound : TransferLeg
  leg_inbound : TransferLeg

/-- The mutable engine state: self._schedules, self._schedule_end_times and
self._transfer_time_guess. -/
structure EngineState where
  schedules : List MissionSchedule
  endTimes : List ℝ
  guess : GuessMap

/-- The engine state right after OrbitEngine.__init__. -/
def initState : EngineState := { schedules := [], endTimes := [], guess := initGuess }

/-- End time (leg_inbound.t_arrive) of the last generated mission, 0 when the
schedule is empty (only read behind a non-emptiness guard). -/
def lastEnd (s : EngineState) : ℝ :=
  match s.schedules.getLast? with
  | some m => m.leg_inbound.t_arrive
  | none => 0

/-- Result of a state-mutating engine call: ok with the new state, or fail
with the state left behind by the raised exception. -/
inductive StepRes where
  | ok (s : EngineState)
  | fail (s : EngineState)

/-- OrbitEngine._append_next_schedule.  On an outbound-search failure the
state is untouched; on an inbound-search failure only the warm-start guess
updated by the successful outbound search persists, exactly as in the
source (the schedule lists are mutated only after both legs are found). -/
def appendNextSchedule (s : EngineState) : StepRes :=
  let missionIndex := s.schedules.length
  let tStart := if s.schedules.isEmpty then 0 else lastEnd s
  match findNextLambertLeg .earth .mars tStart s.guess with
  | none => .fail s
  | some lo =>
      match findNextLambertLeg .mars .earth lo.1.t_arrive lo.2 with
      | none => .fail { s with guess := lo.2 }
      | some li =>
          .ok { schedules := s.schedules ++
                  [{ mission_index := missionIndex, t_start := tStart,
                     leg_outbound := lo.1, leg_inbound := li.1 }],
                endTimes := s.endTimes ++ [li.1.t_arrive],
                guess := li.2 }

/-- The binary search of Python's bisect.bisect_right, with fuel (the
interval halves each step, so length + 1 fuel always suffices). -/
def bisectAux (l : List ℝ) (x : ℝ) : ℕ → ℕ → ℕ → ℕ
  | 0, lo, _hi => lo
  | fuel + 1, lo, hi =>
      if lo < hi then
        let mid := (lo + hi) / 2
        if x < l.getD mid 0 then bisectAux l x fuel lo mid
        else bisectAux l x fuel (mid + 1) hi
      else lo

/-- bisect.bisect_right on the whole list. -/
def bisectRight (l : List ℝ) (x : ℝ) : ℕ := bisectAux l x (l.length + 1) 0 l.length

/-- The first while loop of OrbitEngine._ensure_schedules: grow the schedule
until it is non-empty and the last arrival lies strictly beyond t.  The loop
guard is checked even at fuel 0, so exhausted fuel can only turn an append
into a failure, never skip the guard. -/
def ensureLoop1 (t : ℝ) : ℕ → EngineState → StepRes
  | 0, s =>
      if s.schedules.isEmpty ∨ lastEnd s ≤ t then .fail s else .ok s
  | n + 1, s =>
      if s.schedules.isEmpty ∨ lastEnd s ≤ t then
        match appendNextSchedule s with
        | .ok s2 => ensureLoop1 t n s2
        | .fail s2 => .fail s2
      else .ok s

/-- The re-synchronization of _schedule_end_times inside _ensure_schedules
(and _get_schedule_for_time), a no-op when the lengths already agree. -/
def resyncEndTimes (s : EngineState) : EngineState :=
  if s.endTimes.length ≠ s.schedules.length then
    { s with endTimes := s.schedules.map fun m => m.leg_inbound.t_arrive }
  else s

/-- The second while loop of _ensure_schedules: append missions until the
schedule extends lookahead missions beyond the current index (which the
source computes once, before the loop). -/
def ensureLoop2 (idx lookahead : ℕ) : ℕ → EngineState → StepRes
  | 0, s =>
      if s.schedules.length ≤ idx + lookahead then .fail s else .ok s
  | n + 1, s =>
      if s.schedules.length ≤ idx + lookahead then
        match appendNextSchedule s with
        | .ok s2 => ensureLoop2 idx lookahead n s2
        | .fail s2 => .fail s2
      else .ok s

/-- OrbitEngine._ensure_schedules with an explicit fuel for its two while
loops. -/
def ensureSchedules (fuel : ℕ) (timeDays : ℝ) (lookahead : ℕ) (s : EngineState) : StepRes :=
  let t := max 0 timeDays
  match ensureLoop1 t fuel s with
  | .fail s2 => .fail s2
  | .ok s2 =>
      let s3 := resyncEndTimes s2
      let idx := bisectRight s3.endTimes t
      ensureLoop2 idx lookahead fuel s3

/-- Result of a state-mutating engine query that also returns a value. -/
inductive Res (α : Type) where
  | ok (a : α) (s : EngineState)
  | err (s : EngineState)

/-- OrbitEngine._get_schedule_for_time (lookahead_missions = 2).  The err
case with a successfully ensured state models the impossible IndexError on
an empty schedule; ensure guarantees non-emptiness. -/
def getScheduleForTime (fuel : ℕ) (timeDays : ℝ) (s : EngineState) : Res MissionSchedule :=
  match ensureSchedules fuel timeDays 2 s with
  | .fail s2 => .err s2
  | .ok s2 =>
      let s3 := resyncEndTimes s2
      let t := max 0 timeDays
      let idx0 := bisectRight s3.endTimes t
      let idx := if s3.schedules.length ≤ idx0 then s3.schedules.length - 1 else idx0
      match s3.schedules.get? idx with
      | some sch => .ok sch s3
      | none => .err s3

/-- The MissionPhase enum. -/
inductive MissionPhase where
  | earth_orbit_stay
  | transfer_to_mars
  | mars_orbit_stay
  | transfer_to_earth
deriving DecidableEq

/-- The phase decision chain of OrbitEngine.get_mission_phase as a pure
function of the raw query time and the selected schedule entry. -/
def phaseOf (timeDays : ℝ) (sch : MissionSchedule) : MissionPhase :=
  if timeDays < sch.leg_outbound.t_depart then .earth_orbit_stay
  else if timeDays < sch.leg_outbound.t_arrive then .transfer_to_mars
  else if timeDays < sch.leg_inbound.t_depart then .mars_orbit_stay
  else .transfer_to_earth

/-- OrbitEngine.get_mission_phase: phase, mission number and time in mission
(the raw, unclamped query time minus the entry's start). -/
def getMissionPhase (fuel : ℕ) (timeDays : ℝ) (s : EngineState) :
    Res (MissionPhase × ℕ × ℝ) :=
  match getScheduleForTime fuel timeDays s with
  | .err s2 => .err s2
  | .ok sch s2 => .ok (phaseOf timeDays sch, sch.mission_index, timeDays - sch.t_start) s2

/-- The spacecraft position of OrbitEngine.get_spacecraft_position as a pure
function of the raw query time and the selected schedule entry. -/
def shipPosOf (timeDays : ℝ) (sch : MissionSchedule) : Vec3 :=
  match phaseOf timeDays sch with
  | .earth_orbit_stay =>
      let earthWait := sch.leg_outbound.t_depart - sch.t_start
      let earthPeriod := (fitParkingPeriod earthWait earthParkingPeriodDays).1
      parkingPosition .earth timeDays sch.t_start earthParkingR earthPeriod
  | .transfer_to_mars => transferPosition sch.leg_outbound timeDays
  | .mars_orbit_stay =>
      let marsWait := sch.leg_inbound.t_depart - sch.leg_outbound.t_arrive
      let marsPeriod := (fitParkingPeriod marsWait marsParkingPeriodDays).1
      parkingPosition .mars timeDays sch.leg_outbound.t_arrive marsParkingR marsPeriod
  | .transfer_to_earth => transferPosition sch.leg_inbound timeDays

/-- OrbitEngine.get_spacecraft_position: phase lookup followed by a second
schedule lookup, then the per-phase parking or transfer position. -/
def getSpacecraftPosition (fuel : ℕ) (timeDays : ℝ) (s : EngineState) : Res Vec3 :=
  match getMissionPhase fuel timeDays s with
  | .err s2 => .err s2
  | .ok ph s2 =>
      match getScheduleForTime fuel timeDays s2 with
      | .err s3 => .err s3
      | .ok sch s3 =>
          match ph.1 with
          | .earth_orbit_stay =>
              let earthWait := sch.leg_outbound.t_depart - sch.t_start
              let earthPeriod := (fitParkingPeriod earthWait earthParkingPeriodDays).1
              .ok (parkingPosition .earth timeDays sch.t_start earthParkingR earthPeriod) s3
          | .transfer_to_mars => .ok (transferPosition sch.leg_outbound timeDays) s3
          | .mars_orbit_stay =>
              let marsWait := sch.leg_inbound.t_depart - sch.leg_outbound.t_arrive
              let marsPeriod := (fitParkingPeriod marsWait marsParkingPeriodDays).1
              .ok (parkingPosition .mars timeDays sch.leg_outbound.t_arrive marsParkingR marsPeriod) s3
          | .transfer_to_earth => .ok (transferPosition sch.leg_inbound timeDays) s3

/-- OrbitEngine.calculate_distance. -/
def calculateDistance (pos1 pos2 : Vec3) : ℝ :=
  Real.sqrt ((pos1.1 - pos2.1) ^ 2 + (pos1.2.1 - pos2.2.1) ^ 2 + (pos1.2.2 - pos2.2.2) ^ 2)

/-- The mission_schedule sub-dictionary of get_mission_info. -/
structure MissionScheduleInfo where
  mission_index : ℕ
  t_start : ℝ
  t_launch_earth : ℝ
  t_arrival_mars : ℝ
  t_depart_mars : ℝ
  t_arrival_earth : ℝ
  earth_wait : ℝ
  mars_wait : ℝ
  transfer_earth_mars : ℝ
  transfer_mars_earth : ℝ

/-- The dictionary returned by OrbitEngine.get_mission_info. -/
structure MissionInfo where
  time_days : ℝ
  mission_number : ℕ
  phase : MissionPhase
  time_in_mission : ℝ
  mission_duration : ℝ
  mission_schedule : MissionScheduleInfo
  timeline_horizon_end : ℝ
  earth_position : Vec3
  mars_position : Vec3
  spacecraft_position : Vec3
  earth_mars_distance : ℝ
  earth_velocity : Vec3
  mars_velocity : Vec3
  progress : ℝ

/-- The mission_schedule sub-dictionary as a function of the entry. -/
def scheduleInfoOf (sch : MissionSchedule) : MissionScheduleInfo :=
  { mission_index := sch.mission_index, t_start := sch.t_start,
    t_launch_earth := sch.leg_outbound.t_depart,
    t_arrival_mars := sch.leg_outbound.t_arrive,
    t_depart_mars := sch.leg_inbound.t_depart,
    t_arrival_earth := sch.leg_inbound.t_arrive,
    earth_wait := sch.leg_outbound.t_depart - sch.t_start,
    mars_wait := sch.leg_inbound.t_depart - sch.leg_outbound.t_arrive,
    transfer_earth_mars := sch.leg_outbound.duration,
    transfer_mars_earth := sch.leg_inbound.duration }

/-- OrbitEngine.get_mission_info: clamp the time, compute planet states, the
spacecraft position, phase and schedule entry (each internal call re-ensuring
coverage exactly as the source does), and assemble the snapshot. -/
def getMissionInfo (fuel : ℕ) (timeDays0 : ℝ) (s : EngineState) : Res MissionInfo :=
  let timeDays := max 0 timeDays0
  let earthPos := planetPosition .earth timeDays
  let marsPos := planetPosition .mars timeDays
  match getSpacecraftPosition fuel timeDays s with
  | .err s2 => .err s2
  | .ok shipPos s2 =>
      match getMissionPhase fuel timeDays s2 with
      | .err s3 => .err s3
      | .ok ph s3 =>
          match getScheduleForTime fuel timeDays s3 with
          | .err s4 => .err s4
          | .ok sch s4 =>
              let missionDuration := sch.leg_inbound.t_arrive - sch.t_start
              let horizonEnd := match s4.schedules.getLast? with
                | some lastSch => lastSch.leg_inbound.t_arrive
                | none => sch.leg_inbound.t_arrive
              .ok { time_days := timeDays, mission_number := ph.2.1, phase := ph.1,
                    time_in_mission := ph.2.2, mission_duration := missionDuration,
                    mission_schedule := scheduleInfoOf sch,
                    timeline_horizon_end := horizonEnd,
                    earth_position := earthPos, mars_position := marsPos,
                    spacecraft_position := shipPos,
                    earth_mars_distance := calculateDistance earthPos marsPos,
                    earth_velocity := planetVelocity .earth timeDays,
                    mars_velocity := planetVelocity .mars timeDays,
                    progress := if missionDuration ≤ 0 then 0
                      else max 0 (min 1 (ph.2.2 / missionDuration)) } s4

/-- The SimulationState class of backend/main.py. -/
structure SimulationState where
  is_running : Bool
  current_time : ℝ
  time_speed : ℝ
  paused : Bool

/-- SimulationState.__init__. -/
def initSimState : SimulationState :=
  { is_running := false, current_time := 0.0, time_speed := 0.1, paused := false }

/-- The pause branch of the websocket command handler:
sim_state.paused = not sim_state.paused. -/
def handlePause (st : SimulationState) : SimulationState :=
  { st with paused := !st.paused }

/-- The state mutation of the set_time branch of the websocket command
handler (after a successful float parse):
sim_state.current_time = max(0.0, t). -/
def handleSetTime (t : ℝ) (st : SimulationState) : SimulationState :=
  { st with current_time := max 0 t }

/-- Engine states reachable from construction: every state mutation of the
engine goes through successful _append_next_schedule calls (the ensure loops
only call it repeatedly, and the end-times resync is the identity on states
whose lists are in sync). -/
inductive Reachable : EngineState → Prop
  | init : Reachable initState
  | step {s s2 : EngineState} : Reachable s → appendNextSchedule s = .ok s2 → Reachable s2

/-- Deterministic replay of n successful appends from the initial state. -/
def appendIter : ℕ → StepRes
  | 0 => .ok initState
  | n + 1 =>
      match appendIter n with
      | .ok s => appendNextSchedule s
      | .fail s => .fail s

/-- The re-propagation validation a stored transfer leg passed in
_compute_lambert_leg: its departure state propagated by its duration lands
within 1e-4 AU of its stored arrival position. -/
def propagateChecked (leg : TransferLeg) : Prop :=
  dist3 (propagateTwoBody leg.pos_depart leg.vel_depart leg.duration).1 leg.pos_arrive ≤ 1e-4

/-- Everything the launch-window search guarantees about a leg it returns. -/
def legWitnessed (src tgt : Planet) (leg : TransferLeg) : Prop :=
  leg.source = src ∧ leg.target = tgt ∧ 0 < leg.duration ∧
  leg.t_arrive = leg.t_depart + leg.duration ∧
  leg.pos_depart = outerParkingPoint src leg.t_depart ∧
  leg.pos_arrive = outerParkingPoint tgt leg.t_arrive ∧
  propagateChecked leg ∧ transferLegClearanceOk leg = true

/-- The per-entry timestamp ordering of a mission schedule entry. -/
def entryOrdered (m : MissionSchedule) : Prop :=
  m.t_start ≤ m.leg_outbound.t_depart ∧
  m.leg_outbound.t_depart < m.leg_outbound.t_arrive ∧
  m.leg_outbound.t_arrive ≤ m.leg_inbound.t_depart ∧
  m.leg_inbound.t_depart < m.leg_inbound.t_arrive

/-- The full per-entry invariant maintained by _append_next_schedule. -/
def entryGood (m : MissionSchedule) : Prop :=
  0 ≤ m.t_start ∧ entryOrdered m ∧
  legWitnessed .earth .mars m.leg_outbound ∧ legWitnessed .mars .earth m.leg_inbound

/-- The engine-state invariant: end times mirror the schedules, every entry
is well formed, and consecutive missions are concatenated. -/
def WFState (s : EngineState) : Prop :=
  s.endTimes = s.schedules.map (fun m => m.leg_inbound.t_arrive) ∧
  s.schedules.Forall entryGood ∧
  List.Chain' (fun m1 m2 => m2.t_start = m1.leg_inbound.t_arrive) s.schedules

/-- The claimed schedule invariant (claim C1), stated over entry indices:
per-entry ordering, concatenation of consecutive entries, and strict
monotonicity t_start < leg_inbound.t_arrive of every entry. -/
def scheduleInvariant (s : EngineState) : Prop :=
  (∀ k (hk : k < s.schedules.length),
    (s.schedules.get ⟨k, hk⟩).t_start ≤ (s.schedules.get ⟨k, hk⟩).leg_outbound.t_depart ∧
    (s.schedules.get ⟨k, hk⟩).leg_outbound.t_depart <
      (s.schedules.get ⟨k, hk⟩).leg_outbound.t_arrive ∧
    (s.schedules.get ⟨k, hk⟩).leg_outbound.t_arrive ≤
      (s.schedules.get ⟨k, hk⟩).leg_inbound.t_depart ∧
    (s.schedules.get ⟨k, hk⟩).leg_inbound.t_depart <
      (s.schedules.get ⟨k, hk⟩).leg_inbound.t_arrive ∧
    (s.schedules.get ⟨k, hk⟩).t_start < (s.schedules.get ⟨k, hk⟩).leg_inbound.t_arrive) ∧
  (∀ k (hk : k + 1 < s.schedules.length),
    (s.schedules.get ⟨k + 1, hk⟩).t_start =
      (s.schedules.get ⟨k, Nat.lt_of_succ_lt hk⟩).leg_inbound.t_arrive)

/-- Claim C2 packaged over a whole engine state: every stored leg passed the
re-propagation validation. -/
def allLegsPropagateChecked (s : EngineState) : Prop :=
  s.schedules.Forall fun m => propagateChecked m.leg_outbound ∧ propagateChecked m.leg_inbound

/-- Every sample of the clearance scan at step parameter dtq keeps the
spacecraft outside both exclusion radii. -/
def clearSamplesAt (leg : TransferLeg) (dtq : ℝ) : Prop :=
  ∀ i : ℕ, i ≤ clearanceSteps leg dtq →
    exclusionRadius .earth ≤ dist3 (transferPosition leg (clearanceSample leg dtq i))
      (planetPosition .earth (clearanceSample leg dtq i)) ∧
    exclusionRadius .mars ≤ dist3 (transferPosition leg (clearanceSample leg dtq i))
      (planetPosition .mars (clearanceSample leg dtq i))

/-- Claim C3's property of one leg: the coarse scan (0.25-day step parameter)
clears both planets at every sample, and whenever its minimum margin is below
5e-3 the confirming rescan at a fifth of the step (0.05 days) is also
non-negative (and hence clears every finer sample). -/
def legClearanceSpec (leg : TransferLeg) : Prop :=
  clearSamplesAt leg clearanceCheckDtDays ∧
  (minClearance leg (exclusionRadius .earth) (exclusionRadius .mars) clearanceCheckDtDays < 5e-3 →
    0 ≤ minClearance leg (exclusionRadius .earth) (exclusionRadius .mars)
      (clearanceCheckDtDays / 5) ∧
    clearSamplesAt leg (clearanceCheckDtDays / 5))

/-- Claim C3 packaged over a whole engine state. -/
def allLegsClearanceSpec (s : EngineState) : Prop :=
  s.schedules.Forall fun m => legClearanceSpec m.leg_outbound ∧ legClearanceSpec m.leg_inbound

/-- Claim C5's generic boundary statement: with the fitted parking period,
the parking position at the anchor and (when the wait reaches the source's
1e-6 day floor, so that the fitted period divides it exactly) at the end of
the wait coincide with the outer parking point. -/
def parkingBoundaryExact (p : Planet) (tAnchor wait nominal : ℝ) : Prop :=
  parkingPosition p tAnchor tAnchor (parkingRadius p) (fitParkingPeriod wait nominal).1 =
    outerParkingPoint p tAnchor ∧
  (1e-6 ≤ wait →
    parkingPosition p (tAnchor + wait) tAnchor (parkingRadius p)
      (fitParkingPeriod wait nominal).1 = outerParkingPoint p (tAnchor + wait))

/-- Claim C5 at one schedule entry: both stay boundaries of the Earth stay
and of the Mars stay land on the outer parking point, the departure-side
boundaries coinciding with the stored departure positions of the legs. -/
def entryParkingExact (m : MissionSchedule) : Prop :=
  (parkingBoundaryExact .earth m.t_start (m.leg_outbound.t_depart - m.t_start)
      earthParkingPeriodDays ∧
    (1e-6 ≤ m.leg_outbound.t_depart - m.t_start →
      parkingPosition .earth m.leg_outbound.t_depart m.t_start (parkingRadius .earth)
        (fitParkingPeriod (m.leg_outbound.t_depart - m.t_start) earthParkingPeriodDays).1 =
        m.leg_outbound.pos_depart)) ∧
  (parkingBoundaryExact .mars m.leg_outbound.t_arrive
      (m.leg_inbound.t_depart - m.leg_outbound.t_arrive) marsParkingPeriodDays ∧
    (1e-6 ≤ m.leg_inbound.t_depart - m.leg_outbound.t_arrive →
      parkingPosition .mars m.leg_inbound.t_depart m.leg_outbound.t_arrive (parkingRadius .mars)
        (fitParkingPeriod (m.leg_inbound.t_depart - m.leg_outbound.t_arrive)
          marsParkingPeriodDays).1 = m.leg_inbound.pos_depart))

/-- Claim C5 packaged over a whole engine state. -/
def allEntriesParkingExact (s : EngineState) : Prop :=
  s.schedules.Forall entryParkingExact

/-- Every field of a mission_info snapshot except timeline_horizon_end. -/
structure MissionInfoCore where
  time_days : ℝ
  mission_number : ℕ
  phase : MissionPhase
  time_in_mission : ℝ
  mission_duration : ℝ
  mission_schedule : MissionScheduleInfo
  earth_position : Vec3
  mars_position : Vec3
  spacecraft_position : Vec3
  earth_mars_distance : ℝ
  earth_velocity : Vec3
  mars_velocity : Vec3
  progress : ℝ

/-- Projection of a snapshot onto everything but timeline_horizon_end. -/
def coreOf (v : MissionInfo) : MissionInfoCore :=
  { time_days := v.time_days, mission_number := v.mission_number, phase := v.phase,
    time_in_mission := v.time_in_mission, mission_duration := v.mission_duration,
    mission_schedule := v.mission_schedule, earth_position := v.earth_position,
    mars_position := v.mars_position, spacecraft_position := v.spacecraft_position,
    earth_mars_distance := v.earth_mars_distance, earth_velocity := v.earth_velocity,
    mars_velocity := v.mars_velocity, progress := v.progress }

/-- The snapshot core as a pure function of the clamped query time and the
selected schedule entry. -/
def mkCore (td : ℝ) (sch : MissionSchedule) : MissionInfoCore :=
  { time_days := td, mission_number := sch.mission_index, phase := phaseOf td sch,
    time_in_mission := td - sch.t_start,
    mission_duration := sch.leg_inbound.t_arrive - sch.t_start,
    mission_schedule := scheduleInfoOf sch,
    earth_position := planetPosition .earth td, mars_position := planetPosition .mars td,
    spacecraft_position := shipPosOf td sch,
    earth_mars_distance := calculateDistance (planetPosition .earth td) (planetPosition .mars td),
    earth_velocity := planetVelocity .earth td, mars_velocity := planetVelocity .mars td,
    progress := if sch.leg_inbound.t_arrive - sch.t_start ≤ 0 then 0
      else max 0 (min 1 ((td - sch.t_start) / (sch.leg_inbound.t_arrive - sch.t_start))) }

/-- The schedule entry a covering reachable state selects for a clamped query
time: this is what every internal _get_schedule_for_time lookup returns. -/
def SelSched (tq : ℝ) (sch : MissionSchedule) : Prop :=
  ∃ s : EngineState, Reachable s ∧ s.schedules ≠ [] ∧ tq < lastEnd s ∧
    s.schedules.get? (bisectRight s.endTimes tq) = some sch

/-- Extractor for the horizon field of a snapshot query result. -/
def horizonOf : Res MissionInfo → Option ℝ
  | .ok v _ => some v.timeline_horizon_end
  | .err _ => none

/-- Extractor for the value of a mission-phase query result. -/
def phaseValueOf : Res (MissionPhase × ℕ × ℝ) → Option (MissionPhase × ℕ × ℝ)
  | .ok a _ => some a
  | .err _ => none

/-- A placeholder transfer leg with the given departure and arrival epochs
(the position and velocity fields are irrelevant to schedule lookup and
phase computation). -/
def exLeg (src tgt : Planet) (td ta : ℝ) : TransferLeg :=
  { source := src, target := tgt, t_depart := td, t_arrive := ta, duration := ta - td,
    pos_depart := (0, 0, 0), pos_arrive := (0, 0, 0), vel_depart := (0, 0, 0),
    vel_arrive := (0, 0, 0), prograde := true, long_way := false }

/-- A schedule entry with the given timestamps. -/
def exEntry (k : ℕ) (t0 od oa idm ia : ℝ) : MissionSchedule :=
  { mission_index := k, t_start := t0, leg_outbound := exLeg .earth .mars od oa,
    leg_inbound := exLeg .mars .earth idm ia }

/-- A three-mission engine state covering t = 0 with two lookahead missions
(so that every ensure call at t = 0 is a no-op). -/
def exState3 : EngineState :=
  { schedules := [exEntry 0 0 10 300 400 700, exEntry 1 700 710 1000 1100 1400,
      exEntry 2 1400 1410 1700 1800 2100],
    endTimes := [700, 1400, 2100], guess := initGuess }

/-- The same engine state after one further mission has been generated. -/
def exState4 : EngineState :=
  { schedules := [exEntry 0 0 10 300 400 700, exEntry 1 700 710 1000 1100 1400,
      exEntry 2 1400 1410 1700 1800 2100, exEntry 3 2100 2110 2400 2500 2800],
    endTimes := [700, 1400, 2100, 2800], guess := initGuess }

/-- The characterization of bisect.bisect_right's result on a sorted list:
r entries at or below the probe, all later entries above it. -/
def bisectSpec (l : List ℝ) (x : ℝ) (r : ℕ) : Prop :=
  r ≤ l.length ∧
  (∀ i (h : i < l.length), i < r → l.get ⟨i, h⟩ ≤ x) ∧
  (∀ i (h : i < l.length), r ≤ i → x < l.get ⟨i, h⟩)

end

/-! ## Basic facts about the command handlers and failed appends -/

/-- C10: the pause command toggles the paused flag and leaves every other
simulation-state field unchanged; two pause commands restore the state. -/
theorem c10_pause_toggles (st : SimulationState) :
    handlePause (handlePause st) = st ∧
    (handlePause st).paused = !st.paused ∧
    (handlePause st).is_running = st.is_running ∧
    (handlePause st).current_time = st.current_time ∧
    (handlePause st).time_speed = st.time_speed := by
  refine ⟨?_, rfl, rfl, rfl, rfl⟩
  simp [handlePause]

/-- C9: a failing _append_next_schedule leaves _schedules and
_schedule_end_times exactly as they were (the failure is the propagated
RuntimeError of the exhausted launch-window search). -/
theorem c9_append_failure_preserves_schedules (s : EngineState) :
    match appendNextSchedule s with
    | .fail s2 => s2.schedules = s.schedules ∧ s2.endTimes = s.endTimes
    | .ok _ => True := by
  unfold appendNextSchedule
  cases h1 : findNextLambertLeg .earth .mars
      (if s.schedules.isEmpty then 0 else lastEnd s) s.guess with
  | none => simp [h1]
  | some lo =>
      cases h2 : findNextLambertLeg .mars .earth lo.1.t_arrive lo.2 with
      | none => simp [h1, h2]
      | some li => simp [h1, h2]

/-! ## What the launch-window search guarantees about a returned leg -/

/-- A leg built by _compute_lambert_leg records its inputs and passed the
re-propagation check. -/
theorem computeLambertLeg_spec {src tgt : Planet} {td dt : ℝ} {pr lw : Bool}
    {leg : TransferLeg} (h : computeLambertLeg src tgt td dt pr lw = some leg) :
    leg.source = src ∧ leg.target = tgt ∧ leg.t_depart = td ∧ leg.duration = dt ∧
    0 < dt ∧ leg.t_arrive = td + dt ∧
    leg.pos_depart = outerParkingPoint src td ∧
    leg.pos_arrive = outerParkingPoint tgt (td + dt) ∧ propagateChecked leg := by
  simp only [computeLambertLeg] at h
  split at h
  · exact absurd h (by simp)
  next hdt =>
    split at h
    next => exact absurd h (by simp)
    next vs hL =>
      split at h
      next hchk => exact absurd h (by simp)
      next hchk =>
        obtain rfl := Option.some.inj h
        refine ⟨rfl, rfl, rfl, rfl, lt_of_not_le hdt, rfl, rfl, rfl, ?_⟩
        exact not_lt.1 hchk

/-- Any best-so-far pair produced by the candidate fold at one departure
epoch is a _compute_lambert_leg output that passed the clearance filter. -/
theorem evalFold_spec (src tgt : Planet) (td : ℝ) (vS : Vec3) :
    ∀ (l : List (ℝ × Bool)) (acc : Option (TransferLeg × ℝ)),
      (∀ lc : TransferLeg × ℝ, acc = some lc →
        ∃ dt lw, computeLambertLeg src tgt td dt true lw = some lc.1 ∧
          transferLegClearanceOk lc.1 = true) →
      ∀ lc : TransferLeg × ℝ,
        l.foldl (fun a c => evalCandidate src tgt td vS a c.1 c.2) acc = some lc →
        ∃ dt lw, computeLambertLeg src tgt td dt true lw = some lc.1 ∧
          transferLegClearanceOk lc.1 = true := by
  intro l
  induction l with
  | nil => intro acc hacc lc h; exact hacc lc h
  | cons c cs ih =>
      intro acc hacc lc h
      rw [List.foldl_cons] at h
      refine ih _ ?_ lc h
      intro lc2 h2
      unfold evalCandidate at h2
      cases hcmp : computeLambertLeg src tgt td c.1 true c.2 with
      | none => rw [hcmp] at h2; exact hacc lc2 h2
      | some leg =>
          rw [hcmp] at h2
          dsimp only at h2
          split at h2
          · exact hacc lc2 h2
          next hbudget =>
            split at h2
            · exact hacc lc2 h2
            next hclear =>
              have hclear2 : transferLegClearanceOk leg = true := by
                cases hok : transferLegClearanceOk leg with
                | false => exact absurd hok hclear
                | true => rfl
              cases hacc2 : acc with
              | none =>
                  rw [hacc2] at h2
                  dsimp only at h2
                  obtain rfl := Option.some.inj h2
                  exact ⟨c.1, c.2, hcmp, hclear2⟩
              | some best =>
                  rw [hacc2] at h2
                  dsimp only at h2
                  split at h2
                  · obtain rfl := Option.some.inj h2
                    exact ⟨c.1, c.2, hcmp, hclear2⟩
                  · exact hacc lc2 (hacc2.trans h2)

/-- The best leg at one departure epoch comes from _compute_lambert_leg at
that epoch and passed the clearance filter. -/
theorem bestLegAt_spec {src tgt : Planet} {dtGuess td : ℝ} {best : TransferLeg × ℝ}
    (h : bestLegAt src tgt dtGuess td = some best) :
    ∃ dt lw, computeLambertLeg src tgt td dt true lw = some best.1 ∧
      transferLegClearanceOk best.1 = true := by
  unfold bestLegAt at h
  exact evalFold_spec src tgt td _ _ none (by intro lc hlc; cases hlc) best h

/-- The departure step of the search is the configured 2 days. -/
theorem departStepSan_pos : 0 < departStepSan := by
  norm_num [departStepSan, lambertDepartStepDays]

/-- Any leg found by the departure-epoch scan departs at or after the given
lower bound and is a clearance-passing _compute_lambert_leg output. -/
theorem departScan_spec (src tgt : Planet) (dtGuess scanEnd lowbound : ℝ) :
    ∀ (fuel : ℕ) (td : ℝ), lowbound ≤ td →
      ∀ leg, departScan src tgt dtGuess scanEnd fuel td = some leg →
        ∃ tdep, lowbound ≤ tdep ∧ ∃ dt lw,
          computeLambertLeg src tgt tdep dt true lw = some leg ∧
          transferLegClearanceOk leg = true := by
  intro fuel
  induction fuel with
  | zero =>
      intro td _ leg h
      exact absurd h (by simp [departScan])
  | succ n ih =>
      intro td htd leg h
      unfold departScan at h
      split at h
      · cases hbest : bestLegAt src tgt dtGuess td with
        | none =>
            rw [hbest] at h
            have hstep : lowbound ≤ td + departStepSan :=
              le_trans htd (le_add_of_nonneg_right departStepSan_pos.le)
            exact ih (td + departStepSan) hstep leg h
        | some best =>
            rw [hbest] at h
            obtain rfl := Option.some.inj h
            exact ⟨td, htd, bestLegAt_spec hbest⟩
      · exact absurd h (by simp)

/-- Any leg found in any retry window departs at or after the earliest
admissible epoch. -/
theorem windowScan_spec (src tgt : Planet) (dtGuess earliest tEnd synodic : ℝ) :
    ∀ (fuel : ℕ) (center : ℝ),
      ∀ leg, windowScan src tgt dtGuess earliest tEnd synodic fuel center = some leg →
        ∃ tdep, earliest ≤ tdep ∧ ∃ dt lw,
          computeLambertLeg src tgt tdep dt true lw = some leg ∧
          transferLegClearanceOk leg = true := by
  intro fuel
  induction fuel with
  | zero =>
      intro center leg h
      exact absurd h (by simp [windowScan])
  | succ n ih =>
      intro center leg h
      unfold windowScan at h
      dsimp only at h
      cases hd : departScan src tgt dtGuess (min tEnd (center + lambertDepartWindowDays))
          (departFuel (max earliest (center - lambertDepartWindowDays))
            (min tEnd (center + lambertDepartWindowDays)))
          (max earliest (center - lambertDepartWindowDays)) with
      | none =>
          rw [hd] at h
          exact ih (center + synodic) leg h
      | some leg2 =>
          rw [hd] at h
          obtain rfl := Option.some.inj h
          exact departScan_spec src tgt dtGuess _ earliest _ _ (le_max_left _ _) leg2 hd

/-- C2/C1's core search lemma: a successful _find_next_lambert_leg returns a
fully validated leg departing no earlier than max(0, earliest), and updates
only the warm-start guess for its own direction. -/
theorem findNextLambertLeg_spec {src tgt : Planet} {et : ℝ} {g : GuessMap}
    {leg : TransferLeg} {g2 : GuessMap}
    (h : findNextLambertLeg src tgt et g = some (leg, g2)) :
    legWitnessed src tgt leg ∧ max 0 et ≤ leg.t_depart ∧
    g2 = updateGuess g src tgt leg.duration := by
  simp only [findNextLambertLeg] at h
  split at h
  next leg0 hw =>
    obtain ⟨h1, h2⟩ := Prod.mk.inj (Option.some.inj h)
    subst h1
    obtain ⟨tdep, htdep, dt, lw, hcmp, hclear⟩ :=
      windowScan_spec src tgt _ (max 0 et) _ _ _ _ leg0 hw
    obtain ⟨hsrc, htgt, hdep, hdur, hdtpos, harr, hpd, hpa, hprop⟩ := computeLambertLeg_spec hcmp
    subst hdep hdur
    refine ⟨⟨hsrc, htgt, hdtpos, harr, ?_, ?_, hprop, hclear⟩, htdep, h2.symm⟩
    · rw [hpd]
    · rw [hpa, harr]
  next => cases h

/-! ## The schedule invariant (claim C1) and its preservation -/

/-- Everything one successful _append_next_schedule guarantees about the
appended entry. -/
theorem appendNextSchedule_ok_spec {s s2 : EngineState} (h : appendNextSchedule s = .ok s2) :
    ∃ m : MissionSchedule,
      s2.schedules = s.schedules ++ [m] ∧
      s2.endTimes = s.endTimes ++ [m.leg_inbound.t_arrive] ∧
      m.t_start = (if s.schedules.isEmpty then 0 else lastEnd s) ∧
      m.mission_index = s.schedules.length ∧
      legWitnessed .earth .mars m.leg_outbound ∧ legWitnessed .mars .earth m.leg_inbound ∧
      max 0 m.t_start ≤ m.leg_outbound.t_depart ∧
      max 0 m.leg_outbound.t_arrive ≤ m.leg_inbound.t_depart := by
  unfold appendNextSchedule at h
  dsimp only at h
  cases h1 : findNextLambertLeg .earth .mars
      (if s.schedules.isEmpty then 0 else lastEnd s) s.guess with
  | none =>
      rw [h1] at h
      exact absurd h (by simp)
  | some lo =>
      obtain ⟨loLeg, loG⟩ := lo
      rw [h1] at h
      dsimp only at h
      cases h2 : findNextLambertLeg .mars .earth loLeg.t_arrive loG with
      | none =>
          rw [h2] at h
          exact absurd h (by simp)
      | some li =>
          obtain ⟨liLeg, liG⟩ := li
          rw [h2] at h
          dsimp only at h
          obtain rfl := StepRes.ok.inj h
          obtain ⟨hwo, hdo, _⟩ := findNextLambertLeg_spec h1
          obtain ⟨hwi, hdi, _⟩ := findNextLambertLeg_spec h2
          exact ⟨_, rfl, rfl, rfl, rfl, hwo, hwi, hdo, hdi⟩

/-- The per-entry ordering follows from the search guarantees. -/
theorem entryOrdered_of_witnessed {m : MissionSchedule}
    (hwo : legWitnessed .earth .mars m.leg_outbound)
    (hwi : legWitnessed .mars .earth m.leg_inbound)
    (hdo : max 0 m.t_start ≤ m.leg_outbound.t_depart)
    (hdi : max 0 m.leg_outbound.t_arrive ≤ m.leg_inbound.t_depart) :
    entryOrdered m := by
  obtain ⟨_, _, hposo, harro, _⟩ := hwo
  obtain ⟨_, _, hposi, harri, _⟩ := hwi
  refine ⟨le_trans (le_max_right 0 _) hdo, ?_, le_trans (le_max_right 0 _) hdi, ?_⟩
  · rw [harro]; linarith
  · rw [harri]; linarith

/-- One successful append preserves the engine-state invariant, appends one
entry, and strictly advances the last arrival time. -/
theorem appendNextSchedule_WF {s s2 : EngineState} (hwf : WFState s)
    (h : appendNextSchedule s = .ok s2) :
    WFState s2 ∧ ∃ m : MissionSchedule,
      s2.schedules = s.schedules ++ [m] ∧
      s2.endTimes = s.endTimes ++ [m.leg_inbound.t_arrive] ∧
      lastEnd s2 = m.leg_inbound.t_arrive ∧
      lastEnd s ≤ m.t_start ∧ m.t_start < m.leg_inbound.t_arrive := by
  obtain ⟨hends, hforall, hchain⟩ := hwf
  obtain ⟨m, hs2, he2, hts, _hidx, hwo, hwi, hdo, hdi⟩ := appendNextSchedule_ok_spec h
  have hord : entryOrdered m := entryOrdered_of_witnessed hwo hwi hdo hdi
  have hts0 : 0 ≤ m.t_start := by
    rw [hts]
    by_cases hemp : s.schedules.isEmpty
    · simp [hemp]
    · rw [if_neg hemp]
      have hne : s.schedules ≠ [] := by
        intro hcontra
        exact hemp (by simp [hcontra])
      obtain ⟨lm, hlm⟩ := List.getLast?_isSome.2 hne |> Option.isSome_iff_exists.1
      have hmem : lm ∈ s.schedules := List.mem_of_mem_getLast? (by rw [hlm]; rfl)
      have hgood := List.forall_iff_forall_mem.1 hforall _ hmem
      have : lastEnd s = lm.leg_inbound.t_arrive := by unfold lastEnd; rw [hlm]
      rw [this]
      obtain ⟨hg0, hg1, _, _⟩ := hgood
      obtain ⟨_, h1, _, h2⟩ := hg1
      linarith
  have hlt : m.t_start < m.leg_inbound.t_arrive := by
    obtain ⟨h1, h2, h3, h4⟩ := hord
    linarith
  have hstart : lastEnd s ≤ m.t_start := by
    rw [hts]
    by_cases hemp : s.schedules.isEmpty
    · rw [if_pos hemp]
      have hnil : s.schedules = [] := List.isEmpty_iff.1 hemp
      simp [lastEnd, hnil]
    · rw [if_neg hemp]
  refine ⟨⟨?_, ?_, ?_⟩, m, hs2, he2, ?_, hstart, hlt⟩
  · rw [hs2, he2, hends]
    simp
  · rw [hs2]
    rw [List.forall_iff_forall_mem]
    intro x hx
    rcases List.mem_append.1 hx with hx1 | hx2
    · exact List.forall_iff_forall_mem.1 hforall _ hx1
    · have hxm : x = m := by simpa using hx2
      rw [hxm]
      exact ⟨hts0, hord, hwo, hwi⟩
  · rw [hs2]
    refine List.chain'_append.2 ⟨hchain, List.chain'_singleton m, ?_⟩
    intro x hx y hy
    have hym : m = y := by simpa using hy
    rw [← hym, hts]
    have hne : s.schedules ≠ [] := by
      intro hcontra
      rw [hcontra] at hx
      cases hx
    have hemp : ¬s.schedules.isEmpty := by
      simpa [List.isEmpty_iff] using hne
    rw [if_neg hemp]
    unfold lastEnd
    rw [Option.mem_def.1 hx]
  · unfold lastEnd
    rw [hs2, List.getLast?_concat]

/-- Claim C1's engine-state invariant holds in every reachable state. -/
theorem reachable_WF {s : EngineState} (h : Reachable s) : WFState s := by
  induction h with
  | init => exact ⟨rfl, trivial, List.chain'_nil⟩
  | step _ hok ih => exact (appendNextSchedule_WF ih hok).1

/-- C1: in every reachable engine state, every schedule entry satisfies
t_start ≤ leg_outbound.t_depart < leg_outbound.t_arrive ≤
leg_inbound.t_depart < leg_inbound.t_arrive, consecutive entries are
concatenated (entry k's t_start equals entry k-1's leg_inbound.t_arrive),
and in particular every entry has t_start < leg_inbound.t_arrive. -/
theorem c1_schedule_invariant (s : EngineState) (hs : Reachable s) :
    scheduleInvariant s := by
  obtain ⟨_, hforall, hchain⟩ := reachable_WF hs
  constructor
  · intro k hk
    have hmem : s.schedules.get ⟨k, hk⟩ ∈ s.schedules := List.get_mem _ _ _
    obtain ⟨hg0, ⟨h1, h2, h3, h4⟩, _, _⟩ := List.forall_iff_forall_mem.1 hforall _ hmem
    exact ⟨h1, h2, h3, h4, by linarith⟩
  · intro k hk
    have hlen : k < s.schedules.length - 1 := by omega
    exact List.chain'_iff_get.1 hchain k hlen

/-- Witness for C1: the invariant holds (vacuously) at the freshly
constructed engine state, which is reachable by construction. -/
theorem c1_schedule_invariant_witness : scheduleInvariant initState :=
  c1_schedule_invariant initState Reachable.init

/-! ## Claim C2: re-propagation validation of every leg -/

/-- C2: every TransferLeg the leg builder returns — and hence every
leg_outbound and leg_inbound stored in a reachable schedule entry — has the
property that propagating its departure state (pos_depart, vel_depart)
forward by its duration with the universal-variable two-body propagator under
mu_sun lands within 1e-4 AU of pos_arrive. -/
theorem c2_leg_propagation_check :
    (∀ (src tgt : Planet) (td dt : ℝ) (pr lw : Bool),
      match computeLambertLeg src tgt td dt pr lw with
      | some leg => propagateChecked leg
      | none => True) ∧
    (∀ s : EngineState, Reachable s → allLegsPropagateChecked s) := by
  constructor
  · intro src tgt td dt pr lw
    cases h : computeLambertLeg src tgt td dt pr lw with
    | none => trivial
    | some leg => exact (computeLambertLeg_spec h).2.2.2.2.2.2.2.2
  · intro s hs
    obtain ⟨_, hforall, _⟩ := reachable_WF hs
    rw [allLegsPropagateChecked, List.forall_iff_forall_mem]
    intro m hm
    obtain ⟨_, _, hwo, hwi⟩ := List.forall_iff_forall_mem.1 hforall _ hm
    exact ⟨hwo.2.2.2.2.2.2.1, hwi.2.2.2.2.2.2.1⟩

/-- Witness for C2: the builder property at a concrete input, and the stored
legs property at the reachable initial state. -/
theorem c2_leg_propagation_check_witness :
    (match computeLambertLeg .earth .mars 0 259 true false with
      | some leg => propagateChecked leg
      | none => True) ∧ allLegsPropagateChecked initState :=
  ⟨c2_leg_propagation_check.1 .earth .mars 0 259 true false,
   c2_leg_propagation_check.2 initState Reachable.init⟩

/-! ## Claim C3: the clearance scan -/

/-- One step of the clearance scan: the new running minimum bounds both
margins at the current sample and never exceeds the old running minimum. -/
theorem clearanceLoop_succ (leg : TransferLeg) (re rm dtq : ℝ) (n i : ℕ) (acc : Option ℝ) :
    ∃ b2 : ℝ, b2 ≤ clearEarthAt leg re dtq i ∧ b2 ≤ clearMarsAt leg rm dtq i ∧
      (∀ b0, acc = some b0 → b2 ≤ b0) ∧
      clearanceLoop leg re rm dtq (n + 1) i acc =
        (if b2 < 0 then some b2 else clearanceLoop leg re rm dtq n (i + 1) (some b2)) := by
  cases acc with
  | none =>
      refine ⟨if clearMarsAt leg rm dtq i < clearEarthAt leg re dtq i then
        clearMarsAt leg rm dtq i else clearEarthAt leg re dtq i, ?_, ?_, ?_, rfl⟩
      · split
        next hc => exact le_of_lt hc
        next => exact le_refl _
      · split
        next => exact le_refl _
        next hc => exact le_of_not_lt hc
      · intro b0 hb0
        cases hb0
  | some b0 =>
      refine ⟨if clearMarsAt leg rm dtq i <
          (if clearEarthAt leg re dtq i < b0 then clearEarthAt leg re dtq i else b0) then
          clearMarsAt leg rm dtq i
        else (if clearEarthAt leg re dtq i < b0 then clearEarthAt leg re dtq i else b0),
        ?_, ?_, ?_, rfl⟩
      · rcases lt_or_le (clearEarthAt leg re dtq i) b0 with h1 | h1
        · rw [if_pos h1]
          split
          next hc => exact le_of_lt hc
          next => exact le_refl _
        · rw [if_neg (not_lt.2 h1)]
          split
          next hc => exact le_of_lt (lt_of_lt_of_le hc h1)
          next => exact h1
      · rcases lt_or_le (clearEarthAt leg re dtq i) b0 with h1 | h1
        · rw [if_pos h1]
          split
          next => exact le_refl _
          next hc => exact le_of_not_lt hc
        · rw [if_neg (not_lt.2 h1)]
          split
          next => exact le_refl _
          next hc => exact le_of_not_lt hc
      · intro b1 hb1
        obtain rfl := Option.some.inj hb1
        rcases lt_or_le (clearEarthAt leg re dtq i) b0 with h1 | h1
        · rw [if_pos h1]
          split
          next hc => exact le_of_lt (lt_trans hc h1)
          next => exact le_of_lt h1
        · rw [if_neg (not_lt.2 h1)]
          split
          next hc => exact le_of_lt hc
          next => exact le_refl _

/-- The running minimum of the clearance scan only decreases. -/
theorem clearanceLoop_mono (leg : TransferLeg) (re rm dtq : ℝ) :
    ∀ (fuel i : ℕ) (b0 b : ℝ),
      clearanceLoop leg re rm dtq fuel i (some b0) = some b → b ≤ b0 := by
  intro fuel
  induction fuel with
  | zero =>
      intro i b0 b h
      simp only [clearanceLoop] at h
      exact le_of_eq (Option.some.inj h).symm
  | succ n ih =>
      intro i b0 b h
      obtain ⟨b2, _hbe, _hbm, hacc, heq⟩ := clearanceLoop_succ leg re rm dtq n i (some b0)
      rw [heq] at h
      have hb2 : b2 ≤ b0 := hacc b0 rfl
      split at h
      next =>
          have := Option.some.inj h
          subst this
          exact hb2
      next => exact le_trans (ih (i + 1) b2 b h) hb2

/-- A scan started from a concrete running minimum always produces a value. -/
theorem clearanceLoop_isSome (leg : TransferLeg) (re rm dtq : ℝ) :
    ∀ (fuel i : ℕ) (b0 : ℝ), ∃ b, clearanceLoop leg re rm dtq fuel i (some b0) = some b := by
  intro fuel
  induction fuel with
  | zero =>
      intro i b0
      exact ⟨b0, rfl⟩
  | succ n ih =>
      intro i b0
      obtain ⟨b2, _, _, _, heq⟩ := clearanceLoop_succ leg re rm dtq n i (some b0)
      rw [heq]
      split
      next => exact ⟨b2, rfl⟩
      next => exact ih (i + 1) b2

/-- A scan with at least one iteration always produces a value. -/
theorem clearanceLoop_none_isSome (leg : TransferLeg) (re rm dtq : ℝ) (n i : ℕ) :
    ∃ b, clearanceLoop leg re rm dtq (n + 1) i none = some b := by
  obtain ⟨b2, _, _, _, heq⟩ := clearanceLoop_succ leg re rm dtq n i none
  rw [heq]
  split
  next => exact ⟨b2, rfl⟩
  next => exact clearanceLoop_isSome leg re rm dtq n (i + 1) b2

/-- If the scan finishes with a non-negative minimum, that minimum bounds
both margins at every sample it visited. -/
theorem clearanceLoop_samples (leg : TransferLeg) (re rm dtq : ℝ) :
    ∀ (fuel i : ℕ) (acc : Option ℝ) (b : ℝ),
      clearanceLoop leg re rm dtq fuel i acc = some b → 0 ≤ b →
      ∀ j, i ≤ j → j < i + fuel →
        b ≤ clearEarthAt leg re dtq j ∧ b ≤ clearMarsAt leg rm dtq j := by
  intro fuel
  induction fuel with
  | zero =>
      intro i acc b _h _hb j hj1 hj2
      omega
  | succ n ih =>
      intro i acc b h hb j hj1 hj2
      obtain ⟨b2, hbe, hbm, _hacc, heq⟩ := clearanceLoop_succ leg re rm dtq n i acc
      rw [heq] at h
      split at h
      next hneg =>
          have := Option.some.inj h
          subst this
          exact absurd hb (not_le.2 hneg)
      next hneg =>
          rcases Nat.eq_or_lt_of_le hj1 with rfl | hj
          · have hmono := clearanceLoop_mono leg re rm dtq n (i + 1) b2 b h
            exact ⟨le_trans hmono hbe, le_trans hmono hbm⟩
          · exact ih (i + 1) _ b h hb j hj (by omega)

/-- The min_clearance value is the final running minimum of its scan. -/
theorem minClearance_eq (leg : TransferLeg) (re rm dtq : ℝ) :
    ∃ b, clearanceLoop leg re rm dtq (clearanceSteps leg dtq + 1) 0 none = some b ∧
      minClearance leg re rm dtq = b := by
  obtain ⟨b, hb⟩ := clearanceLoop_none_isSome leg re rm dtq (clearanceSteps leg dtq) 0
  exact ⟨b, hb, by rw [minClearance, hb]; rfl⟩

/-- A non-negative min_clearance means every sample of its scan keeps both
margins non-negative. -/
theorem minClearance_samples {leg : TransferLeg} {re rm dtq : ℝ}
    (h : 0 ≤ minClearance leg re rm dtq) :
    ∀ j ≤ clearanceSteps leg dtq,
      re ≤ dist3 (transferPosition leg (clearanceSample leg dtq j))
        (planetPosition .earth (clearanceSample leg dtq j)) ∧
      rm ≤ dist3 (transferPosition leg (clearanceSample leg dtq j))
        (planetPosition .mars (clearanceSample leg dtq j)) := by
  obtain ⟨b, hb, hmin⟩ := minClearance_eq leg re rm dtq
  rw [hmin] at h
  intro j hj
  have := clearanceLoop_samples leg re rm dtq (clearanceSteps leg dtq + 1) 0 none b hb h j
    (Nat.zero_le j) (by omega)
  unfold clearEarthAt clearMarsAt at this
  constructor
  · linarith [this.1]
  · linarith [this.2]

/-- Unfolding _transfer_leg_clearance_ok = True on a leg of positive
duration: the coarse minimum is non-negative and, whenever it is below 5e-3,
so is the fine rescan's minimum. -/
theorem clearanceOk_spec {leg : TransferLeg} (hlt : leg.t_depart < leg.t_arrive)
    (h : transferLegClearanceOk leg = true) :
    0 ≤ minClearance leg (exclusionRadius .earth) (exclusionRadius .mars) clearanceCheckDtDays ∧
    (minClearance leg (exclusionRadius .earth) (exclusionRadius .mars) clearanceCheckDtDays <
        5e-3 →
      0 ≤ minClearance leg (exclusionRadius .earth) (exclusionRadius .mars)
        (clearanceCheckDtDays / 5)) := by
  unfold transferLegClearanceOk at h
  dsimp only at h
  have hdt : max 1e-6 clearanceCheckDtDays = clearanceCheckDtDays := by
    rw [clearanceCheckDtDays]; norm_num
  have hre : exclusionRadius .earth + max 0 clearanceExtraMargin = exclusionRadius .earth := by
    rw [clearanceExtraMargin]; norm_num
  have hrm : exclusionRadius .mars + max 0 clearanceExtraMargin = exclusionRadius .mars := by
    rw [clearanceExtraMargin]; norm_num
  rw [hdt, hre, hrm] at h
  have hfine : max 1e-6 (clearanceCheckDtDays / 5) = clearanceCheckDtDays / 5 := by
    rw [clearanceCheckDtDays]; norm_num
  rw [hfine] at h
  rw [if_neg (not_le.2 hlt)] at h
  split at h
  next => exact absurd h (by simp)
  next h0 =>
    refine ⟨not_lt.1 h0, ?_⟩
    intro h5
    rw [if_pos h5] at h
    exact of_decide_eq_true h

/-- C3: every transfer leg stored in any reachable schedule entry clears both
planets' exclusion radii at every sample of the 0.25-day coarse scan, and
whenever the coarse minimum margin is below 5e-3 AU (but non-negative, as the
scan's success forces) the confirming rescan at a fifth of the step (0.05
days) is also non-negative and clears every finer sample. -/
theorem c3_clearance (s : EngineState) (hs : Reachable s) : allLegsClearanceSpec s := by
  obtain ⟨_, hforall, _⟩ := reachable_WF hs
  rw [allLegsClearanceSpec, List.forall_iff_forall_mem]
  intro m hm
  obtain ⟨_, _, hwo, hwi⟩ := List.forall_iff_forall_mem.1 hforall _ hm
  have build : ∀ leg : TransferLeg, 0 < leg.duration →
      leg.t_arrive = leg.t_depart + leg.duration →
      transferLegClearanceOk leg = true → legClearanceSpec leg := by
    intro leg hdur harr hok
    have hlt : leg.t_depart < leg.t_arrive := by rw [harr]; linarith
    obtain ⟨hcoarse, hfine⟩ := clearanceOk_spec hlt hok
    refine ⟨?_, ?_⟩
    · intro j hj
      exact minClearance_samples hcoarse j hj
    · intro h5
      refine ⟨hfine h5, ?_⟩
      intro j hj
      exact minClearance_samples (hfine h5) j hj
  obtain ⟨_, _, ho1, ho2, _, _, _, ho3⟩ := hwo
  obtain ⟨_, _, hi1, hi2, _, _, _, hi3⟩ := hwi
  exact ⟨build _ ho1 ho2 ho3, build _ hi1 hi2 hi3⟩

/-- Witness for C3: the clearance property (vacuously) at the reachable
initial state. -/
theorem c3_clearance_witness : allLegsClearanceSpec initState :=
  c3_clearance initState Reachable.init

/-! ## Claim C4: planet distances stay inside the orbit's radial interval -/

/-- The 3-1-3 rotation of get_planet_position preserves the in-plane norm. -/
theorem norm3_inplane (xo yo cw sw ci si cO sO : ℝ)
    (hw : sw ^ 2 + cw ^ 2 = 1) (hi : si ^ 2 + ci ^ 2 = 1) (hO : sO ^ 2 + cO ^ 2 = 1) :
    norm3 (xo * (cw * cO - sw * sO * ci) - yo * (sw * cO + cw * sO * ci),
      xo * (cw * sO + sw * cO * ci) - yo * (sw * sO - cw * cO * ci),
      xo * (sw * si) + yo * (cw * si)) = Real.sqrt (xo ^ 2 + yo ^ 2) := by
  unfold norm3
  congr 1
  dsimp only
  linear_combination
    (xo ^ 2 * (cw ^ 2 + sw ^ 2 * ci ^ 2) + yo ^ 2 * (sw ^ 2 + cw ^ 2 * ci ^ 2) -
      2 * xo * yo * sw * cw * (1 - ci ^ 2)) * hO +
    (xo ^ 2 * sw ^ 2 + yo ^ 2 * cw ^ 2 + 2 * xo * yo * sw * cw) * hi +
    (xo ^ 2 + yo ^ 2) * hw

/-- The position as the rotation applied to the in-plane state. -/
theorem keplerXYZ_eq (elem : OrbitalElements) (timeDays : ℝ) :
    keplerXYZ elem timeDays =
      (keplerR elem timeDays * Real.cos (keplerNuRad elem timeDays) *
          (Real.cos (radiansOf elem.omega) * Real.cos (radiansOf elem.Omega) -
            Real.sin (radiansOf elem.omega) * Real.sin (radiansOf elem.Omega) *
              Real.cos (radiansOf elem.i)) -
        keplerR elem timeDays * Real.sin (keplerNuRad elem timeDays) *
          (Real.sin (radiansOf elem.omega) * Real.cos (radiansOf elem.Omega) +
            Real.cos (radiansOf elem.omega) * Real.sin (radiansOf elem.Omega) *
              Real.cos (radiansOf elem.i)),
       keplerR elem timeDays * Real.cos (keplerNuRad elem timeDays) *
          (Real.cos (radiansOf elem.omega) * Real.sin (radiansOf elem.Omega) +
            Real.sin (radiansOf elem.omega) * Real.cos (radiansOf elem.Omega) *
              Real.cos (radiansOf elem.i)) -
        keplerR elem timeDays * Real.sin (keplerNuRad elem timeDays) *
          (Real.sin (radiansOf elem.omega) * Real.sin (radiansOf elem.Omega) -
            Real.cos (radiansOf elem.omega) * Real.cos (radiansOf elem.Omega) *
              Real.cos (radiansOf elem.i)),
       keplerR elem timeDays * Real.cos (keplerNuRad elem timeDays) *
          (Real.sin (radiansOf elem.omega) * Real.sin (radiansOf elem.i)) +
        keplerR elem timeDays * Real.sin (keplerNuRad elem timeDays) *
          (Real.cos (radiansOf elem.omega) * Real.sin (radiansOf elem.i))) := rfl

/-- The heliocentric radius is non-negative for an elliptical orbit. -/
theorem keplerR_nonneg (elem : OrbitalElements) (timeDays : ℝ)
    (he0 : 0 ≤ elem.e) (he1 : elem.e ≤ 1) (ha : 0 ≤ elem.a) :
    0 ≤ keplerR elem timeDays := by
  unfold keplerR
  have hc2 := Real.cos_le_one (keplerERad elem timeDays)
  apply mul_nonneg ha
  nlinarith [mul_le_mul_of_nonneg_left hc2 he0]

/-- The norm of the computed heliocentric position equals a (1 - e cos E)
exactly. -/
theorem keplerXYZ_norm (elem : OrbitalElements) (timeDays : ℝ)
    (ha : 0 ≤ elem.a) (he0 : 0 ≤ elem.e) (he1 : elem.e ≤ 1) :
    norm3 (keplerXYZ elem timeDays) = keplerR elem timeDays := by
  rw [keplerXYZ_eq]
  rw [norm3_inplane _ _ _ _ _ _ _ _ (Real.sin_sq_add_cos_sq _) (Real.sin_sq_add_cos_sq _)
    (Real.sin_sq_add_cos_sq _)]
  have hpy : (keplerR elem timeDays * Real.cos (keplerNuRad elem timeDays)) ^ 2 +
      (keplerR elem timeDays * Real.sin (keplerNuRad elem timeDays)) ^ 2 =
      keplerR elem timeDays ^ 2 := by
    linear_combination keplerR elem timeDays ^ 2 * Real.sin_sq_add_cos_sq (keplerNuRad elem timeDays)
  rw [hpy, Real.sqrt_sq (keplerR_nonneg elem timeDays he0 he1 ha)]

/-- C4: for both planets and every time t ≥ 0, the Euclidean norm of
get_planet_position(p, t) lies within 1e-6 AU of the interval
[a (1 - e), a (1 + e)] of that planet's orbital elements (in fact it lies in
the interval exactly). -/
theorem c4_planet_radius_bounds (p : Planet) (timeDays : ℝ) (ht : 0 ≤ timeDays) :
    (planetElements p).a * (1 - (planetElements p).e) - 1e-6 ≤
      norm3 (planetPosition p timeDays) ∧
    norm3 (planetPosition p timeDays) ≤
      (planetElements p).a * (1 + (planetElements p).e) + 1e-6 := by
  have ha : 0 ≤ (planetElements p).a := by
    cases p <;> norm_num [planetElements, earthElements, marsElements]
  have he0 : 0 ≤ (planetElements p).e := by
    cases p <;> norm_num [planetElements, earthElements, marsElements]
  have he1 : (planetElements p).e ≤ 1 := by
    cases p <;> norm_num [planetElements, earthElements, marsElements]
  have hnorm : norm3 (planetPosition p timeDays) = keplerR (planetElements p) timeDays :=
    keplerXYZ_norm _ _ ha he0 he1
  rw [hnorm]
  unfold keplerR
  have hc1 := Real.neg_one_le_cos (keplerERad (planetElements p) timeDays)
  have hc2 := Real.cos_le_one (keplerERad (planetElements p) timeDays)
  have h1 : (planetElements p).e * Real.cos (keplerERad (planetElements p) timeDays) ≤
      (planetElements p).e := by nlinarith
  have h2 : -(planetElements p).e ≤
      (planetElements p).e * Real.cos (keplerERad (planetElements p) timeDays) := by nlinarith
  constructor
  · nlinarith [mul_le_mul_of_nonneg_left h1 ha]
  · nlinarith [mul_le_mul_of_nonneg_left h2 ha]

/-- Witness for C4 at Earth and t = 0. -/
theorem c4_planet_radius_bounds_witness :
    (planetElements .earth).a * (1 - (planetElements .earth).e) - 1e-6 ≤
      norm3 (planetPosition .earth 0) ∧
    norm3 (planetPosition .earth 0) ≤
      (planetElements .earth).a * (1 + (planetElements .earth).e) + 1e-6 :=
  c4_planet_radius_bounds .earth 0 le_rfl

/-! ## Claim C5: parking-orbit handoff at the stay boundaries -/

/-- Python's round never overshoots by more than one half. -/
theorem pythonRound_le (x : ℝ) : (pythonRound x : ℝ) ≤ x + 1 / 2 := by
  unfold pythonRound
  split
  next htie =>
      split
      · linarith [Int.floor_le x]
      · push_cast
        linarith [Int.floor_le x, htie]
  next => exact_mod_cast Int.floor_le (x + 1 / 2)

/-- The fitted parking period: at least one revolution, a period above the
1e-9 floor of _parking_position, and (once the wait reaches the 1e-6 clamp
of _fit_parking_period) an exact integer division of the wait. -/
theorem fitParkingPeriod_spec (duration nominal : ℝ) :
    1 ≤ (fitParkingPeriod duration nominal).2 ∧
    1e-9 < (fitParkingPeriod duration nominal).1 ∧
    (1e-6 ≤ duration →
      (fitParkingPeriod duration nominal).1 * ((fitParkingPeriod duration nominal).2 : ℝ) =
        duration) := by
  unfold fitParkingPeriod
  dsimp only
  set durC := max 1e-6 duration with hdurC
  set nomC := max 1e-6 nominal with hnomC
  set N := max 1 (pythonRound (durC / nomC)) with hN
  have hN1 : 1 ≤ N := le_max_left 1 _
  have hNR : (1 : ℝ) ≤ (N : ℝ) := by exact_mod_cast hN1
  have hdur0 : (1e-6 : ℝ) ≤ durC := le_max_left _ _
  have hnom0 : (1e-6 : ℝ) ≤ nomC := le_max_left _ _
  have hperiod : 1e-9 < durC / (N : ℝ) := by
    rcases eq_or_lt_of_le hN1 with h1 | h2
    · rw [← h1]
      push_cast
      linarith
    · have hNval : pythonRound (durC / nomC) = N := by
        rw [hN, max_eq_right]
        omega
      have hle : (N : ℝ) ≤ durC / nomC + 1 / 2 := by
        rw [← hNval]
        exact pythonRound_le _
      have hnompos : (0 : ℝ) < nomC := by linarith
      have hdnn : (N : ℝ) - 1 / 2 ≤ durC / nomC := by linarith
      have hN2 : (2 : ℝ) ≤ (N : ℝ) := by exact_mod_cast h2
      have hdge : nomC * ((N : ℝ) - 1 / 2) ≤ durC := by
        calc nomC * ((N : ℝ) - 1 / 2) ≤ nomC * (durC / nomC) := by
              apply mul_le_mul_of_nonneg_left hdnn (le_of_lt hnompos)
          _ = durC := by field_simp
      have hNpos : (0 : ℝ) < (N : ℝ) := by linarith
      rw [lt_div_iff hNpos]
      nlinarith
  refine ⟨hN1, hperiod, ?_⟩
  intro hd
  have : durC = duration := max_eq_right hd
  rw [this]
  have hNne : ((N : ℝ)) ≠ 0 := by linarith
  field_simp

/-- The radial unit vector of the prograde basis is _r_hat_xy regardless of
the prograde flip of the tangential vector. -/
theorem progradeBasisXY_fst (pos vel : Vec3) : (progradeBasisXY pos vel).1 = rHatXY pos := by
  unfold progradeBasisXY
  dsimp only
  split
  next => rfl
  next => rfl

/-- When the parking phase has cosine one and sine zero, the parking position
is exactly the outer parking point. -/
theorem parkingPosition_outer (p : Planet) (t tA period : ℝ)
    (hcos : Real.cos (2 * Real.pi / max 1e-9 period * (t - tA)) = 1)
    (hsin : Real.sin (2 * Real.pi / max 1e-9 period * (t - tA)) = 0) :
    parkingPosition p t tA (parkingRadius p) period = outerParkingPoint p t := by
  unfold parkingPosition outerParkingPoint
  dsimp only
  rw [hcos, hsin, progradeBasisXY_fst]
  simp only [Prod.mk.injEq]
  refine ⟨by ring, by ring, trivial⟩

/-- C5's generic form: with the fitted period, the parking position at the
start of the wait is the outer parking point, and likewise at the end of the
wait (where the phase is 2 pi times the revolution count) once the wait is at
least the source's 1e-6 floor. -/
theorem c5_parking_boundary (p : Planet) (tAnchor wait nominal : ℝ) :
    parkingBoundaryExact p tAnchor wait nominal := by
  obtain ⟨hN1, hper, hdiv⟩ := fitParkingPeriod_spec wait nominal
  constructor
  · apply parkingPosition_outer
    · rw [sub_self, mul_zero, Real.cos_zero]
    · rw [sub_self, mul_zero, Real.sin_zero]
  · intro hw
    set q := (fitParkingPeriod wait nominal).1 with hq
    set N := (fitParkingPeriod wait nominal).2 with hNdef
    have hmax : max 1e-9 q = q := max_eq_right (le_of_lt hper)
    have hphase : 2 * Real.pi / max 1e-9 q * (tAnchor + wait - tAnchor) =
        ((N : ℝ)) * (2 * Real.pi) := by
      rw [hmax]
      have hpos : (0 : ℝ) < q := by linarith
      have hdiv2 := hdiv hw
      rw [show tAnchor + wait - tAnchor = wait by ring, ← hdiv2]
      field_simp
      ring
    apply parkingPosition_outer
    · rw [hphase]
      exact_mod_cast Real.cos_int_mul_two_pi N
    · rw [hphase]
      have hcast : ((N : ℝ)) * (2 * Real.pi) = ((2 * N : ℤ) : ℝ) * Real.pi := by
        push_cast
        ring
      rw [hcast]
      exact Real.sin_int_mul_pi _

/-- C5: with the parking period fitted as wait / N (N = max(1, round(wait /
nominal))), the parking position at each stay boundary of every reachable
schedule entry equals the outer parking point of that planet at that time —
at t_start and leg_outbound.t_depart for the Earth stay (the latter
coinciding with leg_outbound.pos_depart) and at leg_outbound.t_arrive and
leg_inbound.t_depart for the Mars stay (the latter coinciding with
leg_inbound.pos_depart) — because the parking phase there is an integer
multiple of 2 pi, exactly in real arithmetic (given the wait is at least the
source's 1e-6 day clamp, below which the fit does not divide the wait). -/
theorem c5_parking_handoff :
    (∀ (p : Planet) (tAnchor wait nominal : ℝ), parkingBoundaryExact p tAnchor wait nominal) ∧
    (∀ s : EngineState, Reachable s → allEntriesParkingExact s) := by
  constructor
  · exact c5_parking_boundary
  · intro s hs
    obtain ⟨_, hforall, _⟩ := reachable_WF hs
    rw [allEntriesParkingExact, List.forall_iff_forall_mem]
    intro m hm
    obtain ⟨_, _, hwo, hwi⟩ := List.forall_iff_forall_mem.1 hforall _ hm
    obtain ⟨_, _, _, _, hpdo, _, _, _⟩ := hwo
    obtain ⟨_, _, _, _, hpdi, _, _, _⟩ := hwi
    refine ⟨⟨c5_parking_boundary _ _ _ _, ?_⟩, ⟨c5_parking_boundary _ _ _ _, ?_⟩⟩
    · intro hw
      have h2 := (c5_parking_boundary .earth m.t_start (m.leg_outbound.t_depart - m.t_start)
        earthParkingPeriodDays).2 hw
      rw [show m.t_start + (m.leg_outbound.t_depart - m.t_start) = m.leg_outbound.t_depart
        from by ring] at h2
      rw [h2, hpdo]
    · intro hw
      have h2 := (c5_parking_boundary .mars m.leg_outbound.t_arrive
        (m.leg_inbound.t_depart - m.leg_outbound.t_arrive) marsParkingPeriodDays).2 hw
      rw [show m.leg_outbound.t_arrive + (m.leg_inbound.t_depart - m.leg_outbound.t_arrive) =
        m.leg_inbound.t_depart from by ring] at h2
      rw [h2, hpdi]

/-- Witness for C5: the generic boundary statement at a concrete input, and
the per-entry statement (vacuously) at the reachable initial state. -/
theorem c5_parking_handoff_witness :
    parkingBoundaryExact .earth 0 70 earthParkingPeriodDays ∧
    allEntriesParkingExact initState :=
  ⟨c5_parking_handoff.1 .earth 0 70 earthParkingPeriodDays,
   c5_parking_handoff.2 initState Reachable.init⟩

/-! ## Correctness of the bisect_right binary search -/

/-- The binary search maintains the bisect invariant on a sorted list. -/
theorem bisectAux_spec (l : List ℝ) (x : ℝ) (hsort : l.Sorted (· ≤ ·)) :
    ∀ (fuel lo hi : ℕ), lo ≤ hi → hi ≤ l.length → hi - lo ≤ fuel →
      (∀ i (h : i < l.length), i < lo → l.get ⟨i, h⟩ ≤ x) →
      (∀ i (h : i < l.length), hi ≤ i → x < l.get ⟨i, h⟩) →
      lo ≤ bisectAux l x fuel lo hi ∧ bisectAux l x fuel lo hi ≤ hi ∧
      (∀ i (h : i < l.length), i < bisectAux l x fuel lo hi → l.get ⟨i, h⟩ ≤ x) ∧
      (∀ i (h : i < l.length), bisectAux l x fuel lo hi ≤ i → x < l.get ⟨i, h⟩) := by
  intro fuel
  induction fuel with
  | zero =>
      intro lo hi hlohi hhi hfuel hbelow habove
      have heq : lo = hi := by omega
      subst heq
      exact ⟨le_refl _, le_refl _, hbelow, habove⟩
  | succ n ih =>
      intro lo hi hlohi hhi hfuel hbelow habove
      unfold bisectAux
      by_cases hlt : lo < hi
      · rw [if_pos hlt]
        have hmid1 : lo ≤ (lo + hi) / 2 := by omega
        have hmid2 : (lo + hi) / 2 < hi := by omega
        have hmidlen : (lo + hi) / 2 < l.length := by omega
        by_cases hx : x < l.getD ((lo + hi) / 2) 0
        · rw [if_pos hx]
          rw [List.getD_eq_get l 0 hmidlen] at hx
          have hres := ih lo ((lo + hi) / 2) hmid1 (by omega) (by omega) hbelow ?_
          · exact ⟨hres.1, le_trans hres.2.1 (le_of_lt hmid2), hres.2.2.1, hres.2.2.2⟩
          · intro i h hi2
            rcases Nat.eq_or_lt_of_le hi2 with heq | hlt2
            · subst heq
              exact hx
            · have hmono := List.pairwise_iff_get.1 hsort ⟨(lo + hi) / 2, hmidlen⟩ ⟨i, h⟩ hlt2
              exact lt_of_lt_of_le hx hmono
        · rw [if_neg hx]
          rw [List.getD_eq_get l 0 hmidlen] at hx
          have hmx : l.get ⟨(lo + hi) / 2, hmidlen⟩ ≤ x := not_lt.1 hx
          have hres := ih ((lo + hi) / 2 + 1) hi (by omega) hhi (by omega) ?_ habove
          · exact ⟨le_trans (le_of_lt (by omega : lo < (lo + hi) / 2 + 1)) hres.1,
              hres.2.1, hres.2.2.1, hres.2.2.2⟩
          · intro i h hi2
            have hile : i ≤ (lo + hi) / 2 := by omega
            rcases Nat.eq_or_lt_of_le hile with heq | hlt2
            · rw [show (⟨i, h⟩ : Fin l.length) = ⟨(lo + hi) / 2, hmidlen⟩ from by
                simp [heq]]
              exact hmx
            · have hmono := List.pairwise_iff_get.1 hsort ⟨i, h⟩ ⟨(lo + hi) / 2, hmidlen⟩ hlt2
              exact le_trans hmono hmx
      · rw [if_neg hlt]
        have heq : lo = hi := by omega
        subst heq
        exact ⟨le_refl _, le_refl _, hbelow, habove⟩

/-- bisect_right satisfies the bisect characterization on sorted input. -/
theorem bisectRight_spec (l : List ℝ) (x : ℝ) (hsort : l.Sorted (· ≤ ·)) :
    bisectSpec l x (bisectRight l x) := by
  have h := bisectAux_spec l x hsort (l.length + 1) 0 l.length (Nat.zero_le _) (le_refl _)
    (by omega) (by intro i hlen hi0; omega) (by intro i hlen hge; exact absurd hlen (by omega))
  exact ⟨h.2.1, h.2.2.1, h.2.2.2⟩

/-- The bisect characterization determines the index. -/
theorem bisectSpec_unique {l : List ℝ} {x : ℝ} {r1 r2 : ℕ}
    (h1 : bisectSpec l x r1) (h2 : bisectSpec l x r2) : r1 = r2 := by
  by_contra hne
  rcases Nat.lt_or_ge r1 r2 with hlt | hge
  · have hlen : r1 < l.length := lt_of_lt_of_le hlt h2.1
    have ha := h1.2.2 r1 hlen (le_refl _)
    have hb := h2.2.1 r1 hlen hlt
    linarith
  · rcases Nat.lt_or_ge r2 r1 with hlt2 | hge2
    · have hlen : r2 < l.length := lt_of_lt_of_le hlt2 h1.1
      have ha := h2.2.2 r2 hlen (le_refl _)
      have hb := h1.2.1 r2 hlen hlt2
      linarith
    · omega

/-- Appending entries above the probe does not change the bisect index. -/
theorem bisectSpec_append {l exts : List ℝ} {x : ℝ} {r : ℕ} (h : bisectSpec l x r)
    (hexts : ∀ y ∈ exts, x < y) : bisectSpec (l ++ exts) x r := by
  refine ⟨le_trans h.1 (by simp), ?_, ?_⟩
  · intro i hlen hir
    have hil : i < l.length := lt_of_lt_of_le hir h.1
    rw [List.get_append i hil]
    exact h.2.1 i hil hir
  · intro i hlen hri
    by_cases hil : i < l.length
    · rw [List.get_append i hil]
      exact h.2.2 i hil hri
    · have hge : l.length ≤ i := not_lt.1 hil
      have hsub : i - l.length < exts.length := by
        have := hlen
        rw [List.length_append] at this
        omega
      rw [@List.get_append_right ℝ i l exts hge hlen hsub]
      exact hexts _ (List.get_mem _ _ _)

/-! ## Sortedness and coverage facts about well-formed engine states -/

/-- In a well-formed state the end times strictly increase. -/
theorem WF_endTimes_pairwise {s : EngineState} (hwf : WFState s) :
    s.endTimes.Pairwise (· < ·) := by
  obtain ⟨hends, hforall, hchain⟩ := hwf
  rw [hends]
  rw [← List.chain'_iff_pairwise]
  rw [List.chain'_map]
  rw [List.chain'_iff_get]
  intro i hi
  have hcons := List.chain'_iff_get.1 hchain i hi
  have hmem : s.schedules.get ⟨i + 1, by omega⟩ ∈ s.schedules := List.get_mem _ _ _
  obtain ⟨_, ⟨h1, h2, h3, h4⟩, _, _⟩ := List.forall_iff_forall_mem.1 hforall _ hmem
  rw [← hcons] at *
  linarith

/-- In a well-formed state the end times are sorted. -/
theorem WF_endTimes_sorted {s : EngineState} (hwf : WFState s) :
    s.endTimes.Sorted (· ≤ ·) :=
  (WF_endTimes_pairwise hwf).imp le_of_lt

/-- The last arrival time is the last entry of _schedule_end_times. -/
theorem lastEnd_eq_endTimes_get {s : EngineState} (hwf : WFState s) (hne : s.schedules ≠ []) :
    ∃ h : s.endTimes.length - 1 < s.endTimes.length,
      lastEnd s = s.endTimes.get ⟨s.endTimes.length - 1, h⟩ := by
  obtain ⟨hends, _, _⟩ := hwf
  have hlen : s.endTimes.length = s.schedules.length := by rw [hends, List.length_map]
  have hpos : 0 < s.schedules.length := List.length_pos.2 hne
  refine ⟨by omega, ?_⟩
  unfold lastEnd
  rw [List.getLast?_eq_getLast s.schedules hne]
  dsimp only
  rw [List.getLast_eq_get s.schedules hne]
  have hidx : s.endTimes.length - 1 = s.schedules.length - 1 := by omega
  simp only [hidx]
  rw [List.get_of_eq hends]
  rw [List.get_map]

/-- Coverage puts the bisect index strictly inside the schedule list. -/
theorem bisect_lt_length {s : EngineState} (hwf : WFState s) (hne : s.schedules ≠ [])
    {tq : ℝ} (hcov : tq < lastEnd s) :
    bisectRight s.endTimes tq < s.schedules.length := by
  have hsorted := WF_endTimes_sorted hwf
  have hspec := bisectRight_spec s.endTimes tq hsorted
  obtain ⟨hlt, hlast⟩ := lastEnd_eq_endTimes_get hwf hne
  have hlen : s.endTimes.length = s.schedules.length := by
    rw [hwf.1, List.length_map]
  rcases Nat.eq_or_lt_of_le hspec.1 with heq | hlt2
  · exfalso
    have hbelow := hspec.2.1 (s.endTimes.length - 1) hlt (by omega)
    rw [← hlast] at hbelow
    linarith
  · omega

/-! ## Postconditions of _ensure_schedules and claim C8 -/

/-- A state whose end times mirror its schedules is left unchanged by the
resync step. -/
theorem resync_eq {s : EngineState} (hwf : WFState s) : resyncEndTimes s = s := by
  unfold resyncEndTimes
  rw [if_neg]
  push_neg
  rw [hwf.1, List.length_map]

/-- The coverage loop of _ensure_schedules: on success the state is still
reachable, non-empty, covers the clamped time, and only grew at the end. -/
theorem ensureLoop1_post {tq : ℝ} :
    ∀ (fuel : ℕ) {s s1 : EngineState}, Reachable s →
      ensureLoop1 tq fuel s = .ok s1 →
      Reachable s1 ∧ s1.schedules ≠ [] ∧ tq < lastEnd s1 ∧
      ∃ ds, s1.schedules = s.schedules ++ ds := by
  intro fuel
  induction fuel with
  | zero =>
      intro s s1 hr h
      unfold ensureLoop1 at h
      split at h
      next => exact absurd h (by simp)
      next hguard =>
        obtain rfl := StepRes.ok.inj h
        push_neg at hguard
        refine ⟨hr, ?_, hguard.2, [], by simp⟩
        simpa [List.isEmpty_iff] using hguard.1
  | succ n ih =>
      intro s s1 hr h
      unfold ensureLoop1 at h
      split at h
      next hguard =>
        cases happ : appendNextSchedule s with
        | fail s2 =>
            rw [happ] at h
            exact absurd h (by simp)
        | ok s2 =>
            rw [happ] at h
            have hr2 : Reachable s2 := Reachable.step hr happ
            obtain ⟨hra, hnea, hcova, ds, hds⟩ := ih hr2 h
            obtain ⟨_, m, hm, _, _, _, _⟩ := appendNextSchedule_WF (reachable_WF hr) happ
            exact ⟨hra, hnea, hcova, [m] ++ ds, by rw [hds, hm, List.append_assoc]⟩
      next hguard =>
        obtain rfl := StepRes.ok.inj h
        push_neg at hguard
        refine ⟨hr, ?_, hguard.2, [], by simp⟩
        simpa [List.isEmpty_iff] using hguard.1

/-- The lookahead loop of _ensure_schedules: on success the schedule extends
past the frozen index plus the lookahead, and every appended end time lies
beyond the covered time. -/
theorem ensureLoop2_post {idx lookahead : ℕ} {tq : ℝ} :
    ∀ (fuel : ℕ) {s s1 : EngineState}, Reachable s →
      s.schedules ≠ [] → tq < lastEnd s →
      ensureLoop2 idx lookahead fuel s = .ok s1 →
      Reachable s1 ∧ idx + lookahead < s1.schedules.length ∧
      s1.schedules ≠ [] ∧ tq < lastEnd s1 ∧
      (∃ ds, s1.schedules = s.schedules ++ ds) ∧
      ∃ de, s1.endTimes = s.endTimes ++ de ∧ ∀ y ∈ de, tq < y := by
  intro fuel
  induction fuel with
  | zero =>
      intro s s1 hr hne hcov h
      unfold ensureLoop2 at h
      split at h
      next => exact absurd h (by simp)
      next hguard =>
        obtain rfl := StepRes.ok.inj h
        exact ⟨hr, by omega, hne, hcov, ⟨[], by simp⟩, [], by simp, by intro y hy; cases hy⟩
  | succ n ih =>
      intro s s1 hr hne hcov h
      unfold ensureLoop2 at h
      split at h
      next hguard =>
        cases happ : appendNextSchedule s with
        | fail s2 =>
            rw [happ] at h
            exact absurd h (by simp)
        | ok s2 =>
            rw [happ] at h
            have hr2 : Reachable s2 := Reachable.step hr happ
            obtain ⟨hwf2, m, hm, he, hlast2, hstart, hslt⟩ :=
              appendNextSchedule_WF (reachable_WF hr) happ
            have hne2 : s2.schedules ≠ [] := by
              rw [hm]
              simp
            have hcov2 : tq < lastEnd s2 := by
              rw [hlast2]
              have hleS : lastEnd s ≤ m.t_start := hstart
              linarith
            obtain ⟨hra, hlen, hnea, hcova, ⟨ds, hds⟩, de, hde, hdey⟩ := ih hr2 hne2 hcov2 h
            refine ⟨hra, hlen, hnea, hcova, ⟨[m] ++ ds, by rw [hds, hm, List.append_assoc]⟩,
              [m.leg_inbound.t_arrive] ++ de, by rw [hde, he, List.append_assoc], ?_⟩
            intro y hy
            rcases List.mem_append.1 hy with hy1 | hy2
            · have : y = m.leg_inbound.t_arrive := by simpa using hy1
              rw [this]
              have hleS : lastEnd s ≤ m.t_start := hstart
              linarith
            · exact hdey y hy2
      next hguard =>
        obtain rfl := StepRes.ok.inj h
        exact ⟨hr, by omega, hne, hcov, ⟨[], by simp⟩, [], by simp, by intro y hy; cases hy⟩

/-- Postcondition of a successful _ensure_schedules call: the resulting
state is reachable, covers the clamped time, and keeps at least the
lookahead count of missions beyond the entry the time selects. -/
theorem ensureSchedules_post {fuel : ℕ} {t : ℝ} {l : ℕ} {s s1 : EngineState}
    (hr : Reachable s) (h : ensureSchedules fuel t l s = .ok s1) :
    Reachable s1 ∧ s1.schedules ≠ [] ∧ max 0 t < lastEnd s1 ∧
    bisectRight s1.endTimes (max 0 t) + l < s1.schedules.length ∧
    ∃ ds, s1.schedules = s.schedules ++ ds := by
  unfold ensureSchedules at h
  dsimp only at h
  cases h1 : ensureLoop1 (max 0 t) fuel s with
  | fail s2 =>
      rw [h1] at h
      exact absurd h (by simp)
  | ok s2 =>
      rw [h1] at h
      dsimp only at h
      obtain ⟨hr2, hne2, hcov2, ds0, hds0⟩ := ensureLoop1_post fuel hr h1
      have hwf2 := reachable_WF hr2
      rw [resync_eq hwf2] at h
      obtain ⟨hra, hlen, hnea, hcova, ⟨ds, hds⟩, de, hde, hdey⟩ :=
        ensureLoop2_post fuel hr2 hne2 hcov2 h
      have hwf1 := reachable_WF hra
      have hspec2 : bisectSpec s1.endTimes (max 0 t) (bisectRight s2.endTimes (max 0 t)) := by
        rw [hde]
        exact bisectSpec_append (bisectRight_spec _ _ (WF_endTimes_sorted hwf2)) hdey
      have hspec1 : bisectSpec s1.endTimes (max 0 t) (bisectRight s1.endTimes (max 0 t)) :=
        bisectRight_spec _ _ (WF_endTimes_sorted hwf1)
      have heq := bisectSpec_unique hspec1 hspec2
      refine ⟨hra, hnea, hcova, ?_, ds0 ++ ds, by rw [hds, hds0, List.append_assoc]⟩
      rw [heq]
      exact hlen

/-- The coverage loop is a no-op once its guard fails, at any fuel. -/
theorem ensureLoop1_noop {tq : ℝ} {s : EngineState}
    (h : ¬(s.schedules.isEmpty ∨ lastEnd s ≤ tq)) :
    ∀ fuel, ensureLoop1 tq fuel s = .ok s := by
  intro fuel
  cases fuel with
  | zero =>
      unfold ensureLoop1
      rw [if_neg h]
  | succ n =>
      unfold ensureLoop1
      rw [if_neg h]

/-- The lookahead loop is a no-op once its guard fails, at any fuel. -/
theorem ensureLoop2_noop {idx lookahead : ℕ} {s : EngineState}
    (h : ¬(s.schedules.length ≤ idx + lookahead)) :
    ∀ fuel, ensureLoop2 idx lookahead fuel s = .ok s := by
  intro fuel
  cases fuel with
  | zero =>
      unfold ensureLoop2
      rw [if_neg h]
  | succ n =>
      unfold ensureLoop2
      rw [if_neg h]

/-- C8: for every t ≥ 0, after one successful _ensure_schedules(t,
lookahead_missions=2) call on a reachable engine state, an immediately
repeated identical call appends no further missions and returns the state
unchanged (at any fuel). -/
theorem c8_ensure_idempotent (s : EngineState) (hs : Reachable s) (t : ℝ) (ht : 0 ≤ t)
    (f1 f2 : ℕ) :
    match ensureSchedules f1 t 2 s with
    | .ok s1 => ensureSchedules f2 t 2 s1 = .ok s1
    | .fail _ => True := by
  cases h : ensureSchedules f1 t 2 s with
  | fail s2 => trivial
  | ok s1 =>
      obtain ⟨hr1, hne, hcov, hidx, _⟩ := ensureSchedules_post hs h
      have hwf1 := reachable_WF hr1
      have hguard1 : ¬(s1.schedules.isEmpty ∨ lastEnd s1 ≤ max 0 t) := by
        push_neg
        constructor
        · simpa [List.isEmpty_iff] using hne
        · exact hcov
      unfold ensureSchedules
      dsimp only
      rw [ensureLoop1_noop hguard1 f2]
      dsimp only
      rw [resync_eq hwf1]
      exact ensureLoop2_noop (by omega) f2

/-- Witness for C8 at the initial state and t = 0 (the result of the first
call is left unevaluated by the match, exactly as in the theorem). -/
theorem c8_ensure_idempotent_witness :
    match ensureSchedules 1 0 2 initState with
    | .ok s1 => ensureSchedules 1 0 2 s1 = .ok s1
    | .fail _ => True :=
  c8_ensure_idempotent initState Reachable.init 0 le_rfl 1 1

/-! ## Determinism of the schedule sequence (claim C6) -/

/-- Every reachable state is a deterministic replay of some number of
successful appends. -/
theorem reach_iter {s : EngineState} (h : Reachable s) : ∃ n, appendIter n = .ok s := by
  induction h with
  | init => exact ⟨0, rfl⟩
  | step _ happ ih =>
      obtain ⟨n, hn⟩ := ih
      refine ⟨n + 1, ?_⟩
      unfold appendIter
      rw [hn]
      exact happ

/-- A successful replay lands on a reachable state. -/
theorem iter_reachable : ∀ (n : ℕ) {s : EngineState}, appendIter n = .ok s → Reachable s := by
  intro n
  induction n with
  | zero =>
      intro s h
      obtain rfl := StepRes.ok.inj h
      exact Reachable.init
  | succ k ih =>
      intro s h
      unfold appendIter at h
      cases hc : appendIter k with
      | fail c =>
          rw [hc] at h
          exact absurd h (by simp)
      | ok c =>
          rw [hc] at h
          exact Reachable.step (ih hc) h

/-- Later replays extend earlier ones at the end of both lists. -/
theorem appendIter_extend : ∀ (k n : ℕ) {a b : EngineState},
    appendIter n = .ok a → appendIter (n + k) = .ok b →
    (∃ ds, b.schedules = a.schedules ++ ds) ∧ ∃ de, b.endTimes = a.endTimes ++ de := by
  intro k
  induction k with
  | zero =>
      intro n a b ha hb
      rw [Nat.add_zero, ha] at hb
      obtain rfl := StepRes.ok.inj hb
      exact ⟨⟨[], by simp⟩, [], by simp⟩
  | succ j ih =>
      intro n a b ha hb
      rw [Nat.add_succ] at hb
      unfold appendIter at hb
      cases hc : appendIter (n + j) with
      | fail c =>
          rw [hc] at hb
          exact absurd hb (by simp)
      | ok c =>
          rw [hc] at hb
          obtain ⟨⟨ds, hds⟩, de, hde⟩ := ih n ha hc
          obtain ⟨_, m, hm, hme, _, _, _⟩ :=
            appendNextSchedule_WF (reachable_WF (iter_reachable _ hc)) hb
          exact ⟨⟨ds ++ [m], by rw [hm, hds, List.append_assoc]⟩,
            de ++ [m.leg_inbound.t_arrive], by rw [hme, hde, List.append_assoc]⟩

/-- Any two reachable states are extensions of one another. -/
theorem reachable_extend {a b : EngineState} (ha : Reachable a) (hb : Reachable b) :
    ((∃ ds, b.schedules = a.schedules ++ ds) ∧ ∃ de, b.endTimes = a.endTimes ++ de) ∨
    ((∃ ds, a.schedules = b.schedules ++ ds) ∧ ∃ de, a.endTimes = b.endTimes ++ de) := by
  obtain ⟨na, hna⟩ := reach_iter ha
  obtain ⟨nb, hnb⟩ := reach_iter hb
  rcases Nat.le_total na nb with h | h
  · obtain ⟨k, rfl⟩ := Nat.le.dest h
    exact Or.inl (appendIter_extend k na hna hnb)
  · obtain ⟨k, rfl⟩ := Nat.le.dest h
    exact Or.inr (appendIter_extend k nb hnb hna)

/-- One direction of schedule-selection determinism: if state b extends
state a and a already covers the query time, both select the same entry. -/
theorem selSched_extend_eq {tq : ℝ} {a b : EngineState} {sch1 sch2 : MissionSchedule}
    (hra : Reachable a) (hrb : Reachable b)
    (hnea : a.schedules ≠ []) (hcova : tq < lastEnd a)
    (hga : a.schedules.get? (bisectRight a.endTimes tq) = some sch1)
    (hgb : b.schedules.get? (bisectRight b.endTimes tq) = some sch2)
    (hext : (∃ ds, b.schedules = a.schedules ++ ds) ∧ ∃ de, b.endTimes = a.endTimes ++ de) :
    sch1 = sch2 := by
  have hwa := reachable_WF hra
  have hwb := reachable_WF hrb
  obtain ⟨⟨ds, hds⟩, de, hde⟩ := hext
  have hde_gt : ∀ y ∈ de, tq < y := by
    intro y hy
    have hpb := WF_endTimes_pairwise hwb
    rw [hde] at hpb
    obtain ⟨hlt, hlast⟩ := lastEnd_eq_endTimes_get hwa hnea
    have hmem : lastEnd a ∈ a.endTimes := by
      rw [hlast]
      exact List.get_mem _ _ _
    have := (List.pairwise_append.1 hpb).2.2 (lastEnd a) hmem y hy
    linarith
  have hbspec : bisectSpec b.endTimes tq (bisectRight a.endTimes tq) := by
    rw [hde]
    exact bisectSpec_append (bisectRight_spec _ _ (WF_endTimes_sorted hwa)) hde_gt
  have hbeq : bisectRight b.endTimes tq = bisectRight a.endTimes tq :=
    bisectSpec_unique (bisectRight_spec _ _ (WF_endTimes_sorted hwb)) hbspec
  have hidx : bisectRight a.endTimes tq < a.schedules.length :=
    bisect_lt_length hwa hnea hcova
  rw [hbeq, hds, List.get?_append hidx, hga] at hgb
  exact Option.some.inj hgb

/-- Schedule selection is deterministic: any two reachable covering states
select the same entry for the same clamped time. -/
theorem selSched_unique {tq : ℝ} {sch1 sch2 : MissionSchedule}
    (h1 : SelSched tq sch1) (h2 : SelSched tq sch2) : sch1 = sch2 := by
  obtain ⟨a, hra, hnea, hcova, hga⟩ := h1
  obtain ⟨b, hrb, hneb, hcovb, hgb⟩ := h2
  rcases reachable_extend hra hrb with hext | hext
  · exact selSched_extend_eq hra hrb hnea hcova hga hgb hext
  · exact (selSched_extend_eq hrb hra hneb hcovb hgb hga hext).symm

/-! ## Characterizing the read-side queries by the selected entry -/

/-- _get_schedule_for_time returns the entry the clamped time selects, on a
reachable (and only grown) state. -/
theorem getScheduleForTime_spec (fuel : ℕ) (t : ℝ) (s : EngineState) (hr : Reachable s) :
    match getScheduleForTime fuel t s with
    | .ok sch s3 => Reachable s3 ∧ SelSched (max 0 t) sch
    | .err _ => True := by
  cases hres : getScheduleForTime fuel t s with
  | err _ => trivial
  | ok sch s3 =>
      unfold getScheduleForTime at hres
      cases he : ensureSchedules fuel t 2 s with
      | fail s2 =>
          rw [he] at hres
          exact absurd hres (by simp)
      | ok s2 =>
          rw [he] at hres
          dsimp only at hres
          obtain ⟨hr2, hne2, hcov2, hidx2, _⟩ := ensureSchedules_post hr he
          have hwf2 := reachable_WF hr2
          rw [resync_eq hwf2] at hres
          have hlt : bisectRight s2.endTimes (max 0 t) < s2.schedules.length := by omega
          rw [if_neg (not_le.2 hlt)] at hres
          cases hget : s2.schedules.get? (bisectRight s2.endTimes (max 0 t)) with
          | none =>
              rw [List.get?_eq_get hlt] at hget
              exact absurd hget (by simp)
          | some sch2 =>
              rw [hget] at hres
              obtain ⟨h1, h2⟩ := Res.ok.inj hres
              subst h1
              subst h2
              exact ⟨hr2, s2, hr2, hne2, hcov2, hget⟩

/-- get_mission_phase returns the phase triple of the selected entry, with
time_in_mission computed from the raw (unclamped) query time. -/
theorem getMissionPhase_spec (fuel : ℕ) (t : ℝ) (s : EngineState) (hr : Reachable s) :
    match getMissionPhase fuel t s with
    | .ok v s3 => Reachable s3 ∧ ∃ sch, SelSched (max 0 t) sch ∧
        v = (phaseOf t sch, sch.mission_index, t - sch.t_start)
    | .err _ => True := by
  cases hres : getMissionPhase fuel t s with
  | err _ => trivial
  | ok v s3 =>
      unfold getMissionPhase at hres
      cases hsch : getScheduleForTime fuel t s with
      | err s2 =>
          rw [hsch] at hres
          exact absurd hres (by simp)
      | ok sch s2 =>
          rw [hsch] at hres
          have hg := getScheduleForTime_spec fuel t s hr
          rw [hsch] at hg
          obtain ⟨hr2, hsel⟩ := hg
          obtain ⟨h1, h2⟩ := Res.ok.inj hres
          subst h1
          subst h2
          exact ⟨hr2, sch, hsel, rfl⟩

/-- get_spacecraft_position returns the per-phase position of the selected
entry. -/
theorem getSpacecraftPosition_spec (fuel : ℕ) (t : ℝ) (s : EngineState) (hr : Reachable s) :
    match getSpacecraftPosition fuel t s with
    | .ok pos s3 => Reachable s3 ∧ ∃ sch, SelSched (max 0 t) sch ∧ pos = shipPosOf t sch
    | .err _ => True := by
  cases hres : getSpacecraftPosition fuel t s with
  | err _ => trivial
  | ok pos s3 =>
      unfold getSpacecraftPosition at hres
      cases hph : getMissionPhase fuel t s with
      | err s2 =>
          rw [hph] at hres
          exact absurd hres (by simp)
      | ok ph s2 =>
          rw [hph] at hres
          dsimp only at hres
          have hg := getMissionPhase_spec fuel t s hr
          rw [hph] at hg
          obtain ⟨hr2, sch1, hsel1, hv⟩ := hg
          cases hsch : getScheduleForTime fuel t s2 with
          | err s4 =>
              rw [hsch] at hres
              exact absurd hres (by simp)
          | ok sch2 s4 =>
              rw [hsch] at hres
              dsimp only at hres
              have hg2 := getScheduleForTime_spec fuel t s2 hr2
              rw [hsch] at hg2
              obtain ⟨hr4, hsel2⟩ := hg2
              obtain rfl : sch1 = sch2 := selSched_unique hsel1 hsel2
              subst hv
              dsimp only at hres
              cases hphase : phaseOf t sch1 <;> rw [hphase] at hres <;>
                (obtain ⟨h1, h2⟩ := Res.ok.inj hres) <;> subst h1 <;> subst h2 <;>
                exact ⟨hr4, sch1, hsel2, by unfold shipPosOf; rw [hphase]⟩

/-- get_mission_info returns the snapshot core of the selected entry as a
pure function of the clamped time and that entry. -/
theorem getMissionInfo_spec (fuel : ℕ) (t0 : ℝ) (s : EngineState) (hr : Reachable s) :
    match getMissionInfo fuel t0 s with
    | .ok v s4 => Reachable s4 ∧ ∃ sch, SelSched (max 0 t0) sch ∧
        coreOf v = mkCore (max 0 t0) sch
    | .err _ => True := by
  cases hres : getMissionInfo fuel t0 s with
  | err _ => trivial
  | ok v s4 =>
      unfold getMissionInfo at hres
      dsimp only at hres
      have hmx : max (0 : ℝ) (max 0 t0) = max 0 t0 := max_eq_right (le_max_left 0 t0)
      cases hship : getSpacecraftPosition fuel (max 0 t0) s with
      | err s2 =>
          rw [hship] at hres
          exact absurd hres (by simp)
      | ok shipPos s2 =>
          rw [hship] at hres
          dsimp only at hres
          have hg1 := getSpacecraftPosition_spec fuel (max 0 t0) s hr
          rw [hship, hmx] at hg1
          obtain ⟨hr2, schA, hselA, hshipv⟩ := hg1
          cases hph : getMissionPhase fuel (max 0 t0) s2 with
          | err s3 =>
              rw [hph] at hres
              exact absurd hres (by simp)
          | ok ph s3 =>
              rw [hph] at hres
              dsimp only at hres
              have hg2 := getMissionPhase_spec fuel (max 0 t0) s2 hr2
              rw [hph, hmx] at hg2
              obtain ⟨hr3, schB, hselB, hphv⟩ := hg2
              cases hsch : getScheduleForTime fuel (max 0 t0) s3 with
              | err s5 =>
                  rw [hsch] at hres
                  exact absurd hres (by simp)
              | ok schC s5 =>
                  rw [hsch] at hres
                  dsimp only at hres
                  have hg3 := getScheduleForTime_spec fuel (max 0 t0) s3 hr3
                  rw [hsch, hmx] at hg3
                  obtain ⟨hr5, hselC⟩ := hg3
                  obtain rfl : schA = schB := selSched_unique hselA hselB
                  obtain rfl : schA = schC := selSched_unique hselA hselC
                  obtain ⟨h1, h2⟩ := Res.ok.inj hres
                  subst h1
                  subst h2
                  subst hphv
                  subst hshipv
                  exact ⟨hr5, schA, hselA, rfl⟩

/-- C6 amended: every field of a successful mission_info snapshot other than
timeline_horizon_end is a pure function of (engine constants, t): two
reachable engine states — however their prior query histories grew them —
return the same snapshot core at the same time. -/
theorem c6_mission_info_core_pure (s1 s2 : EngineState)
    (h1 : Reachable s1) (h2 : Reachable s2) (t : ℝ) (f1 f2 : ℕ) :
    match getMissionInfo f1 t s1, getMissionInfo f2 t s2 with
    | .ok v1 _, .ok v2 _ => coreOf v1 = coreOf v2
    | _, _ => True := by
  cases hr1 : getMissionInfo f1 t s1 with
  | err _ =>
      cases hr2 : getMissionInfo f2 t s2 <;> trivial
  | ok v1 s1x =>
      cases hr2 : getMissionInfo f2 t s2 with
      | err _ => trivial
      | ok v2 s2x =>
          have hg1 := getMissionInfo_spec f1 t s1 h1
          have hg2 := getMissionInfo_spec f2 t s2 h2
          rw [hr1] at hg1
          rw [hr2] at hg2
          obtain ⟨_, schA, hselA, hcoreA⟩ := hg1
          obtain ⟨_, schB, hselB, hcoreB⟩ := hg2
          obtain rfl : schA = schB := selSched_unique hselA hselB
          show coreOf v1 = coreOf v2
          rw [hcoreA, hcoreB]

/-- Witness for C6's amended purity theorem: both engines at the initial
state and t = 0 (the match is the theorem's conclusion, unevaluated). -/
theorem c6_mission_info_core_pure_witness :
    match getMissionInfo 1 0 initState, getMissionInfo 1 0 initState with
    | .ok v1 _, .ok v2 _ => coreOf v1 = coreOf v2
    | _, _ => True :=
  c6_mission_info_core_pure initState initState Reachable.init Reachable.init 0 1 1

/-! ## Evaluating the queries on the concrete covering states -/

/-- The three-mission example state already covers t = 0. -/
theorem ex3_lastEnd : lastEnd exState3 = 2100 := by
  simp [lastEnd, exState3, exEntry, exLeg]

/-- The four-mission example state already covers t = 0. -/
theorem ex4_lastEnd : lastEnd exState4 = 2800 := by
  simp [lastEnd, exState4, exEntry, exLeg]

/-- bisect_right selects index 0 at t = 0 on the three-mission state. -/
theorem ex3_bisect : bisectRight exState3.endTimes 0 = 0 := by
  have hsorted : exState3.endTimes.Sorted (· ≤ ·) := by
    simp only [exState3]
    norm_num [List.sorted_cons]
  have hspec0 : bisectSpec exState3.endTimes 0 0 := by
    refine ⟨Nat.zero_le _, ?_, ?_⟩
    · intro i h hi
      omega
    · intro i h _
      have hmem := List.get_mem exState3.endTimes i h
      have hall : ∀ x ∈ exState3.endTimes, (0 : ℝ) < x := by
        intro x hx
        simp only [exState3, List.mem_cons, List.not_mem_nil, or_false] at hx
        rcases hx with rfl | rfl | rfl <;> norm_num
      exact hall _ hmem
  exact bisectSpec_unique (bisectRight_spec _ _ hsorted) hspec0

/-- bisect_right selects index 0 at t = 0 on the four-mission state. -/
theorem ex4_bisect : bisectRight exState4.endTimes 0 = 0 := by
  have hsorted : exState4.endTimes.Sorted (· ≤ ·) := by
    simp only [exState4]
    norm_num [List.sorted_cons]
  have hspec0 : bisectSpec exState4.endTimes 0 0 := by
    refine ⟨Nat.zero_le _, ?_, ?_⟩
    · intro i h hi
      omega
    · intro i h _
      have hmem := List.get_mem exState4.endTimes i h
      have hall : ∀ x ∈ exState4.endTimes, (0 : ℝ) < x := by
        intro x hx
        simp only [exState4, List.mem_cons, List.not_mem_nil, or_false] at hx
        rcases hx with rfl | rfl | rfl | rfl <;> norm_num
      exact hall _ hmem
  exact bisectSpec_unique (bisectRight_spec _ _ hsorted) hspec0

/-- _ensure_schedules is a no-op on the three-mission state for any query
time clamping to 0. -/
theorem ex3_ensure (f : ℕ) (t : ℝ) (hmax : max 0 t = 0) :
    ensureSchedules f t 2 exState3 = .ok exState3 := by
  unfold ensureSchedules
  dsimp only
  rw [hmax]
  have hguard : ¬(exState3.schedules.isEmpty ∨ lastEnd exState3 ≤ (0 : ℝ)) := by
    rw [ex3_lastEnd]
    push_neg
    constructor
    · simp [exState3]
    · norm_num
  rw [ensureLoop1_noop hguard f]
  dsimp only
  have hresync : resyncEndTimes exState3 = exState3 := by
    unfold resyncEndTimes
    rw [if_neg]
    simp [exState3]
  rw [hresync, ex3_bisect]
  apply ensureLoop2_noop
  simp [exState3]

/-- _ensure_schedules is a no-op on the four-mission state likewise. -/
theorem ex4_ensure (f : ℕ) (t : ℝ) (hmax : max 0 t = 0) :
    ensureSchedules f t 2 exState4 = .ok exState4 := by
  unfold ensureSchedules
  dsimp only
  rw [hmax]
  have hguard : ¬(exState4.schedules.isEmpty ∨ lastEnd exState4 ≤ (0 : ℝ)) := by
    rw [ex4_lastEnd]
    push_neg
    constructor
    · simp [exState4]
    · norm_num
  rw [ensureLoop1_noop hguard f]
  dsimp only
  have hresync : resyncEndTimes exState4 = exState4 := by
    unfold resyncEndTimes
    rw [if_neg]
    simp [exState4]
  rw [hresync, ex4_bisect]
  apply ensureLoop2_noop
  simp [exState4]

/-- Schedule lookup on the three-mission state selects mission 0. -/
theorem ex3_gsft (f : ℕ) (t : ℝ) (hmax : max 0 t = 0) :
    getScheduleForTime f t exState3 = .ok (exEntry 0 0 10 300 400 700) exState3 := by
  unfold getScheduleForTime
  rw [ex3_ensure f t hmax]
  dsimp only
  have hresync : resyncEndTimes exState3 = exState3 := by
    unfold resyncEndTimes
    rw [if_neg]
    simp [exState3]
  rw [hresync, hmax, ex3_bisect]
  rw [if_neg (by simp [exState3])]
  simp [exState3]

/-- Schedule lookup on the four-mission state also selects mission 0. -/
theorem ex4_gsft (f : ℕ) (t : ℝ) (hmax : max 0 t = 0) :
    getScheduleForTime f t exState4 = .ok (exEntry 0 0 10 300 400 700) exState4 := by
  unfold getScheduleForTime
  rw [ex4_ensure f t hmax]
  dsimp only
  have hresync : resyncEndTimes exState4 = exState4 := by
    unfold resyncEndTimes
    rw [if_neg]
    simp [exState4]
  rw [hresync, hmax, ex4_bisect]
  rw [if_neg (by simp [exState4])]
  simp [exState4]

/-- The phase triple on the three-mission state, for any query time that
clamps to 0: phase and index from mission 0, time_in_mission from the raw
query time. -/
theorem ex3_phase (f : ℕ) (t : ℝ) (hmax : max 0 t = 0) :
    getMissionPhase f t exState3 =
      .ok (phaseOf t (exEntry 0 0 10 300 400 700), 0, t - 0) exState3 := by
  unfold getMissionPhase
  rw [ex3_gsft f t hmax]
  simp [exEntry]

/-- The phase triple on the four-mission state. -/
theorem ex4_phase (f : ℕ) (t : ℝ) (hmax : max 0 t = 0) :
    getMissionPhase f t exState4 =
      .ok (phaseOf t (exEntry 0 0 10 300 400 700), 0, t - 0) exState4 := by
  unfold getMissionPhase
  rw [ex4_gsft f t hmax]
  simp [exEntry]

/-- Mission 0 of the example states is in its Earth stay at t = 0. -/
theorem ex_phase0 : phaseOf 0 (exEntry 0 0 10 300 400 700) = .earth_orbit_stay := by
  unfold phaseOf
  rw [if_pos]
  norm_num [exEntry, exLeg]

/-- The spacecraft query threads the three-mission state through unchanged. -/
theorem ex3_ship : ∃ pos, getSpacecraftPosition 1 0 exState3 = .ok pos exState3 := by
  unfold getSpacecraftPosition
  rw [ex3_phase 1 0 (by norm_num)]
  dsimp only
  rw [ex3_gsft 1 0 (by norm_num)]
  dsimp only
  rw [ex_phase0]
  exact ⟨_, rfl⟩

/-- The spacecraft query threads the four-mission state through unchanged. -/
theorem ex4_ship : ∃ pos, getSpacecraftPosition 1 0 exState4 = .ok pos exState4 := by
  unfold getSpacecraftPosition
  rw [ex4_phase 1 0 (by norm_num)]
  dsimp only
  rw [ex4_gsft 1 0 (by norm_num)]
  dsimp only
  rw [ex_phase0]
  exact ⟨_, rfl⟩

/-- On the three-mission state the snapshot's horizon is 2100 (the last
generated mission's arrival). -/
theorem ex3_horizon : horizonOf (getMissionInfo 1 0 exState3) = some 2100 := by
  obtain ⟨pos, hship⟩ := ex3_ship
  unfold getMissionInfo
  dsimp only
  rw [show max (0 : ℝ) 0 = 0 from max_self 0]
  rw [hship]
  dsimp only
  rw [ex3_phase 1 0 (by norm_num)]
  dsimp only
  rw [ex3_gsft 1 0 (by norm_num)]
  dsimp only
  simp [horizonOf, exState3, exEntry, exLeg]

/-- On the four-mission state the snapshot's horizon is 2800. -/
theorem ex4_horizon : horizonOf (getMissionInfo 1 0 exState4) = some 2800 := by
  obtain ⟨pos, hship⟩ := ex4_ship
  unfold getMissionInfo
  dsimp only
  rw [show max (0 : ℝ) 0 = 0 from max_self 0]
  rw [hship]
  dsimp only
  rw [ex4_phase 1 0 (by norm_num)]
  dsimp only
  rw [ex4_gsft 1 0 (by norm_num)]
  dsimp only
  simp [horizonOf, exState4, exEntry, exLeg]

/-- C6 counterexample: two engine states that both already cover t = 0 — the
three-mission state and the state one further coverage-growing query leaves
behind — return different timeline_horizon_end values in mission_info(0), so
the full snapshot (horizon field included) is not a pure function of
(constants, t). -/
theorem c6_horizon_counterexample :
    horizonOf (getMissionInfo 1 0 exState3) ≠ horizonOf (getMissionInfo 1 0 exState4) := by
  rw [ex3_horizon, ex4_horizon]
  norm_num

/-- C7 counterexample: get_mission_phase does not clamp the query time — at
t = -1 its time_in_mission is -1, not the 0 the call at t = 0 returns. -/
theorem c7_negative_time_counterexample :
    phaseValueOf (getMissionPhase 1 (-1) exState3) ≠
      phaseValueOf (getMissionPhase 1 0 exState3) := by
  rw [ex3_phase 1 (-1) (by norm_num), ex3_phase 1 0 (by norm_num)]
  simp only [phaseValueOf, ne_eq, Option.some.injEq, Prod.mk.injEq, not_and]
  intro _ _
  norm_num

/-- C7 amended: get_mission_info clamps negative times (a negative-time call
returns exactly the t = 0 result, state change included), and the set_time
handler stores current_time = 0 for negative inputs; get_mission_phase (and
through it get_spacecraft_position) instead uses the raw negative time. -/
theorem c7_negative_time_clamp :
    (∀ (fuel : ℕ) (t : ℝ) (s : EngineState), t < 0 →
      getMissionInfo fuel t s = getMissionInfo fuel 0 s) ∧
    (∀ (t : ℝ) (st : SimulationState), t < 0 →
      handleSetTime t st = { st with current_time := 0 }) := by
  constructor
  · intro fuel t s ht
    unfold getMissionInfo
    rw [show max (0 : ℝ) t = max 0 0 from by rw [max_eq_left (le_of_lt ht), max_self]]
  · intro t st ht
    unfold handleSetTime
    rw [max_eq_left (le_of_lt ht)]

/-- Witness for C7's amended theorem at t = -1. -/
theorem c7_negative_time_clamp_witness :
    getMissionInfo 1 (-1) initState = getMissionInfo 1 0 initState ∧
    handleSetTime (-1) initSimState = { initSimState with current_time := 0 } :=
  ⟨c7_negative_time_clamp.1 1 (-1) initState (by norm_num),
   c7_negative_time_clamp.2 (-1) initSimState (by norm_num)⟩

end MarsMission
